import Mathlib

/-!
Verification development for the sequential-thinking engine of this
repository.  The definitions below are a shallow embedding of the two
engine classes found in `src/tools/sequential-thinking-manager.ts`:

* `Manager.*` embeds the session-based `SequentialThinkingManager`
  (`createSession` / `addThought` / `validateThoughtSequence` /
  `getSessionSummary`), the engine wired up by `src/server.ts`.
* `Server.*` embeds the standalone sqlite-backed
  `SequentialThinkingServer` (`processThought`, validation, eviction,
  fuzzy search and the persistence layer).

JavaScript-specific behaviour (truthiness of optional fields,
`Array.prototype.slice` with a non-positive argument, `String.prototype.trim`,
`split(/\s+/)`, stable comparator sorts) is modelled by dedicated helper
functions.  Identifier generation (`uuidv4` / `generateId`) and wall-clock
timestamps are external nondeterminism: they enter the model as explicit
parameters.  Fields that no observable behaviour reads (the `id` of an
in-memory thought, log output, terminal formatting) are omitted.
-/

namespace SeqThink

/-! ## JavaScript string / array primitives -/

/-- Whitespace characters matched by JavaScript `\s` and trimmed by
`String.prototype.trim`. -/
def jsIsWhitespace (c : Char) : Bool :=
  (0x9 ≤ c.val && c.val ≤ 0xD) || c.val == 0x20 || c.val == 0xA0 ||
  c.val == 0x1680 || (0x2000 ≤ c.val && c.val ≤ 0x200A) ||
  c.val == 0x2028 || c.val == 0x2029 || c.val == 0x202F ||
  c.val == 0x205F || c.val == 0x3000 || c.val == 0xFEFF

/-- JavaScript `String.prototype.trim` on a list of characters. -/
def jsTrim (cs : List Char) : List Char :=
  ((cs.dropWhile jsIsWhitespace).reverse.dropWhile jsIsWhitespace).reverse

/-- Characters removed by `sanitizeThoughtContent` (the regex
`[\x00-\x1F\x7F-\x9F]`). -/
def isControlChar (c : Char) : Bool :=
  c.val ≤ 0x1F || (0x7F ≤ c.val && c.val ≤ 0x9F)

/-- Embeds `sanitizeThoughtContent`: strip control characters, then trim. -/
def sanitizeThoughtContent (s : String) : String :=
  ⟨jsTrim (s.toList.filter (fun c => !isControlChar c))⟩

/-- JavaScript `arr.slice(-n)` for a non-negative count `n`.  `slice(-0)`
is `slice(0)`, which returns the whole array — this quirk matters when a
memory limit is configured as `0`. -/
def jsSliceLast (l : List α) (n : Nat) : List α :=
  if n = 0 then l else l.drop (l.length - n)

/-- JavaScript truthiness of an optional number field (`0` is falsy). -/
def numTruthy : Option Int → Bool
  | some n => n ≠ 0
  | none => false

/-- JavaScript truthiness of an optional boolean field. -/
def boolTruthy : Option Bool → Bool
  | some b => b
  | none => false

/-- JavaScript truthiness of an optional string field (`""` is falsy). -/
def strTruthy : Option String → Bool
  | some s => s ≠ ""
  | none => false

/-! ## Shared enumerations -/

/-- The `thoughtType` union: `'hypothesis' | 'verification'`. -/
inductive ThoughtType where
  | hypothesis
  | verification
deriving DecidableEq

/-- The `verificationResult` union:
`'confirmed' | 'refuted' | 'partial' | 'pending'`. -/
inductive VerificationResult where
  | confirmed
  | refuted
  | partialResult
  | pending
deriving DecidableEq

/-- Sequence `status` union: `'active' | 'completed' | 'archived'`. -/
inductive SeqStatus where
  | active
  | completed
  | archived
deriving DecidableEq

end SeqThink

namespace SeqThink.Manager

/-! ## Embedding of `SequentialThinkingManager` (sessions engine)

This is the engine used by `src/server.ts`: each thinking session holds a
thought list plus `Map`s of hypotheses and verifications keyed by thought
number.  JavaScript `Map`s are modelled as association lists whose `set`
replaces in place (preserving insertion order) or appends. -/

/-- Embeds the `ThoughtParams` input interface (field `thought` is the
content string). -/
structure ThoughtParams where
  thought : String
  thoughtNumber : Int
  totalThoughts : Int
  nextThoughtNeeded : Bool
  isRevision : Option Bool
  revisesThought : Option Int
  branchFromThought : Option Int
  branchId : Option String
  thoughtType : Option ThoughtType
  relatedTo : Option (List Int)
  verificationResult : Option VerificationResult
deriving DecidableEq

/-- Embeds `ThoughtState` as stored in `session.thoughts`.  The generated
`id`, the `sessionId` and the `timestamp` are external nondeterminism read
by no claim-relevant code and are omitted. -/
structure ThoughtState where
  thoughtNumber : Int
  content : String
  isRevision : Bool
  revisesThought : Option Int
  branchFromThought : Option Int
  branchId : Option String
  thoughtType : Option ThoughtType
  relatedTo : Option (List Int)
  verificationResult : Option VerificationResult
deriving DecidableEq

/-- Association-list model of a JavaScript `Map<number, ThoughtState>`. -/
def mapGet (m : List (Int × ThoughtState)) (k : Int) : Option ThoughtState :=
  (m.find? (fun p => p.1 = k)).map (·.2)

/-- `Map.prototype.set`: replace in place if the key exists, else append. -/
def mapSet (m : List (Int × ThoughtState)) (k : Int) (v : ThoughtState) :
    List (Int × ThoughtState) :=
  if m.any (fun p => p.1 = k) then
    m.map (fun p => if p.1 = k then (k, v) else p)
  else m ++ [(k, v)]

/-- Embeds `ThinkingSession` (the `id`, `createdAt` and `updatedAt` fields
are external nondeterminism and are omitted). -/
structure ThinkingSession where
  thoughts : List ThoughtState
  totalThoughts : Int
  isComplete : Bool
  hypotheses : List (Int × ThoughtState)
  verifications : List (Int × ThoughtState)
deriving DecidableEq

/-- The session produced by `createSession`. -/
def emptySession : ThinkingSession :=
  { thoughts := [], totalThoughts := 0, isComplete := false,
    hypotheses := [], verifications := [] }

/-- First block of `validateThoughtSequence`: reject a duplicate
non-revision thought number. -/
def duplicateCheck (session : ThinkingSession) (params : ThoughtParams) :
    Except String Unit :=
  if !boolTruthy params.isRevision then
    match session.thoughts.find?
        (fun t => t.thoughtNumber = params.thoughtNumber && !t.isRevision) with
    | some _ =>
        .error ("Thought number " ++ toString params.thoughtNumber ++
          " already exists. Use isRevision: true to revise.")
    | none => .ok ()
  else .ok ()

/-- Second block of `validateThoughtSequence`: a revision must carry a
`revisesThought` naming an existing thought of the session. -/
def revisionCheck (session : ThinkingSession) (params : ThoughtParams) :
    Except String Unit :=
  if boolTruthy params.isRevision then
    if !numTruthy params.revisesThought then
      .error "revisesThought is required when isRevision is true"
    else
      match session.thoughts.find?
          (fun t => some t.thoughtNumber = params.revisesThought) with
      | none =>
          .error ("Cannot revise non-existent thought " ++
            toString (params.revisesThought.getD 0))
      | some _ => .ok ()
  else .ok ()

/-- Third block of `validateThoughtSequence`: `branchFromThought` must
name an existing thought. -/
def branchCheck (session : ThinkingSession) (params : ThoughtParams) :
    Except String Unit :=
  if numTruthy params.branchFromThought then
    match session.thoughts.find?
        (fun t => some t.thoughtNumber = params.branchFromThought) with
    | none =>
        .error ("Cannot branch from non-existent thought " ++
          toString (params.branchFromThought.getD 0))
    | some _ => .ok ()
  else .ok ()

/-- The `for (const relatedThought of params.relatedTo)` loop of the
verification block: every referenced number must be a key of the
hypotheses map. -/
def checkRelated (hypotheses : List (Int × ThoughtState)) :
    List Int → Except String Unit
  | [] => .ok ()
  | r :: rest =>
      match mapGet hypotheses r with
      | none => .error ("Cannot verify non-existent hypothesis " ++ toString r)
      | some _ => checkRelated hypotheses rest

/-- Fourth block of `validateThoughtSequence`: verification linkage
(`params.relatedTo` is only inspected when present — a JavaScript array,
even empty, is truthy). -/
def verificationCheck (session : ThinkingSession) (params : ThoughtParams) :
    Except String Unit :=
  if params.thoughtType = some ThoughtType.verification then
    match params.relatedTo with
    | some related => checkRelated session.hypotheses related
    | none => .ok ()
  else .ok ()

/-- Embeds `validateThoughtSequence`: the four blocks run in source order
and the first thrown error wins. -/
def validateThoughtSequence (session : ThinkingSession)
    (params : ThoughtParams) : Except String Unit := do
  let _ ← duplicateCheck session params
  let _ ← revisionCheck session params
  let _ ← branchCheck session params
  verificationCheck session params

/-- The `ThoughtState` record built inside `addThought`
(`isRevision: params.isRevision || false`). -/
def mkThoughtState (params : ThoughtParams) : ThoughtState :=
  { thoughtNumber := params.thoughtNumber
    content := params.thought
    isRevision := boolTruthy params.isRevision
    revisesThought := params.revisesThought
    branchFromThought := params.branchFromThought
    branchId := params.branchId
    thoughtType := params.thoughtType
    relatedTo := params.relatedTo
    verificationResult := params.verificationResult }

/-- Embeds `addThought`: validate against the current session, then push
the new thought, update the session fields and index hypotheses /
verifications.  A thrown validation error leaves the session untouched
(all mutation happens after `validateThoughtSequence` returns). -/
def addThought (session : ThinkingSession) (params : ThoughtParams) :
    Except String (ThoughtState × ThinkingSession) := do
  let _ ← validateThoughtSequence session params
  let ts := mkThoughtState params
  let session' : ThinkingSession :=
    { thoughts := session.thoughts ++ [ts]
      totalThoughts := params.totalThoughts
      isComplete := !params.nextThoughtNeeded
      hypotheses :=
        if params.thoughtType = some ThoughtType.hypothesis then
          mapSet session.hypotheses params.thoughtNumber ts
        else session.hypotheses
      verifications :=
        if params.thoughtType = some ThoughtType.verification then
          mapSet session.verifications params.thoughtNumber ts
        else session.verifications }
  pure (ts, session')

/-- Sessions reachable from `createSession` through accepted `addThought`
calls. -/
inductive Reachable : ThinkingSession → Prop where
  | empty : Reachable emptySession
  | step {s : ThinkingSession} {p : ThoughtParams} {ts : ThoughtState}
      {s' : ThinkingSession} : Reachable s →
      addThought s p = .ok (ts, s') → Reachable s'

/-- Derived status of one hypothesis, as computed inside
`getSessionSummary`: the latest verification whose `relatedTo` includes
the hypothesis' number decides; no verification means `pending`; a
verification with `pending` or no `verificationResult` also counts as
`pending`. -/
def hypothesisStatus (thoughts : List ThoughtState) (h : ThoughtState) :
    VerificationResult :=
  let verifications := thoughts.filter (fun t =>
    t.thoughtType = some ThoughtType.verification &&
    (match t.relatedTo with
     | some l => h.thoughtNumber ∈ l
     | none => false))
  match verifications.getLast? with
  | none => VerificationResult.pending
  | some v =>
      match v.verificationResult with
      | some VerificationResult.confirmed => VerificationResult.confirmed
      | some VerificationResult.refuted => VerificationResult.refuted
      | some VerificationResult.partialResult => VerificationResult.partialResult
      | _ => VerificationResult.pending

/-- The session a successful `addThought` leaves behind (the push and
field updates of the source, spelled out as one record). -/
def sessionAfter (session : ThinkingSession) (params : ThoughtParams) :
    ThinkingSession :=
  { thoughts := session.thoughts ++ [mkThoughtState params]
    totalThoughts := params.totalThoughts
    isComplete := !params.nextThoughtNeeded
    hypotheses :=
      if params.thoughtType = some ThoughtType.hypothesis then
        mapSet session.hypotheses params.thoughtNumber (mkThoughtState params)
      else session.hypotheses
    verifications :=
      if params.thoughtType = some ThoughtType.verification then
        mapSet session.verifications params.thoughtNumber (mkThoughtState params)
      else session.verifications }

/-- Thought numbers of the non-revision thoughts of a line. -/
def nonRevisionNumbers (thoughts : List ThoughtState) : List Int :=
  (thoughts.filter (fun t => !t.isRevision)).map (·.thoughtNumber)

/-- Thought numbers recorded with `thoughtType = hypothesis`. -/
def hypothesisNumbers (thoughts : List ThoughtState) : List Int :=
  (thoughts.filter (fun t => t.thoughtType = some ThoughtType.hypothesis)).map
    (·.thoughtNumber)

end SeqThink.Manager

namespace SeqThink.Server

/-! ## Embedding of the standalone `SequentialThinkingServer`

This class keeps a main-line `thoughtHistory`, a `branches` record (a
JavaScript object whose key order is insertion order), configured memory
limits, and a sqlite database of sequences and thoughts. -/

/-- Embeds the `ThoughtData` interface (validated submission). -/
structure ThoughtData where
  thought : String
  thoughtNumber : Int
  totalThoughts : Int
  isRevision : Option Bool
  revisesThought : Option Int
  branchFromThought : Option Int
  branchId : Option String
  needsMoreThoughts : Option Bool
  nextThoughtNeeded : Bool
  thoughtType : Option ThoughtType
  verificationResult : Option VerificationResult
  relatedTo : Option (List Int)
deriving DecidableEq

/-- Embeds the `sequences` table row / `SequenceRecord` interface.
Timestamps are epoch numbers supplied by the caller. -/
structure SequenceRecord where
  id : String
  title : String
  description : Option String
  created : Nat
  lastModified : Nat
  status : SeqStatus
  thoughtCount : Nat
deriving DecidableEq

/-- Embeds the `thoughts` table row.  Boolean columns are stored as the
truthiness of the submitted optional field (`thought.isRevision ? 1 : 0`). -/
structure ThoughtRow where
  id : String
  sequenceId : String
  thought : String
  thoughtNumber : Int
  totalThoughts : Int
  isRevision : Bool
  revisesThought : Option Int
  branchFromThought : Option Int
  branchId : Option String
  needsMoreThoughts : Bool
  nextThoughtNeeded : Bool
  thoughtType : Option ThoughtType
  verificationResult : Option VerificationResult
  relatedTo : Option (List Int)
  created : Nat
  modified : Nat
deriving DecidableEq

/-- The `{sequence, thoughts}` bundle produced by `exportSequence` and
consumed by `importSequence`. -/
structure ImportBundle where
  sequence : SequenceRecord
  thoughts : List ThoughtRow
deriving DecidableEq

/-- Raw `saveSequence` directive as found on the untyped input object. -/
structure SaveSequenceReq where
  title : Option String
  description : Option String
deriving DecidableEq

/-- Raw `loadSequence` directive. -/
structure LoadSequenceReq where
  id : Option String
deriving DecidableEq

/-- Raw `searchSequence` directive. -/
structure SearchSequenceReq where
  query : Option String
  limit : Option Int
  contentSearch : Option Bool
deriving DecidableEq

/-- Raw `exportSequence` directive. -/
structure ExportSequenceReq where
  id : Option String
deriving DecidableEq

/-- Raw `importSequence` directive (`data` must be an object; its inner
shape is not validated further by the source). -/
structure ImportSequenceReq where
  data : Option ImportBundle
deriving DecidableEq

/-- The untyped submission object consumed by `processThought`.  `none`
models an absent (or `undefined`) field.  Numbers are modelled as
integers, so the `Number.isInteger` checks of the source always pass;
out-of-range values remain representable. -/
structure RawInput where
  thought : Option String
  thoughtNumber : Option Int
  totalThoughts : Option Int
  nextThoughtNeeded : Option Bool
  isRevision : Option Bool
  revisesThought : Option Int
  branchFromThought : Option Int
  branchId : Option String
  needsMoreThoughts : Option Bool
  thoughtType : Option ThoughtType
  verificationResult : Option VerificationResult
  relatedTo : Option (List Int)
  sequenceId : Option String
  saveSequence : Option SaveSequenceReq
  loadSequence : Option LoadSequenceReq
  searchSequence : Option SearchSequenceReq
  exportSequence : Option ExportSequenceReq
  importSequence : Option ImportSequenceReq
deriving DecidableEq

/-- Validated `saveSequence` payload. -/
structure SaveSequenceCmd where
  title : String
  description : Option String
deriving DecidableEq

/-- Validated `loadSequence` payload. -/
structure LoadSequenceCmd where
  id : String
deriving DecidableEq

/-- Validated `searchSequence` payload. -/
structure SearchSequenceCmd where
  query : Option String
  limit : Option Int
  contentSearch : Option Bool
deriving DecidableEq

/-- Validated `exportSequence` payload. -/
structure ExportSequenceCmd where
  id : String
deriving DecidableEq

/-- Validated `importSequence` payload. -/
structure ImportSequenceCmd where
  data : ImportBundle
deriving DecidableEq

/-- Embeds `SequenceThoughtData`: the validated base thought plus the
optional management directives. -/
structure SequenceThoughtData where
  base : ThoughtData
  sequenceId : Option String
  saveSequence : Option SaveSequenceCmd
  loadSequence : Option LoadSequenceCmd
  searchSequence : Option SearchSequenceCmd
  exportSequence : Option ExportSequenceCmd
  importSequence : Option ImportSequenceCmd
deriving DecidableEq

/-- The required-field check for `thought` (`!data.thought || typeof
data.thought !== 'string'`, then the length bounds; an empty string is
falsy, so it hits the first message). -/
def thoughtCheck (data : RawInput) : Except String Unit :=
  match data.thought with
  | none => .error "Invalid thought: must be a non-empty string"
  | some s =>
      if s = "" then .error "Invalid thought: must be a non-empty string"
      else if s.length > 10000 then
        .error "Invalid thought: must be between 1 and 10000 characters"
      else .ok ()

/-- The required positive-integer check for `thoughtNumber`. -/
def thoughtNumberCheck (data : RawInput) : Except String Unit :=
  match data.thoughtNumber with
  | some n =>
      if n < 1 then .error "Invalid thoughtNumber: must be a positive integer"
      else .ok ()
  | none => .error "Invalid thoughtNumber: must be a positive integer"

/-- The required positive-integer check for `totalThoughts`. -/
def totalThoughtsCheck (data : RawInput) : Except String Unit :=
  match data.totalThoughts with
  | some n =>
      if n < 1 then .error "Invalid totalThoughts: must be a positive integer"
      else .ok ()
  | none => .error "Invalid totalThoughts: must be a positive integer"

/-- The required boolean check for `nextThoughtNeeded`. -/
def nextThoughtNeededCheck (data : RawInput) : Except String Unit :=
  match data.nextThoughtNeeded with
  | some _ => .ok ()
  | none => .error "Invalid nextThoughtNeeded: must be a boolean"

/-- The optional-field range checks, in source order.  Checks that can
only reject a JavaScript value of the wrong runtime type (e.g. `typeof
data.isRevision !== 'boolean'`) are vacuous in this typed model. -/
def optionalFieldChecks (data : RawInput) : Except String Unit := do
  if let some n := data.revisesThought then
    if n < 1 then throw "Invalid revisesThought: must be a positive integer"
  if let some n := data.branchFromThought then
    if n < 1 then throw "Invalid branchFromThought: must be a positive integer"
  if let some s := data.branchId then
    if s = "" || s.length > 100 then
      throw "Invalid branchId: must be a non-empty string with max 100 characters"
  if let some l := data.relatedTo then
    if !(l.all (fun n => n > 0)) then
      throw "Invalid relatedTo: must be an array of positive integers"
  if let some l := data.relatedTo then
    if l.length > 50 then
      throw "Invalid relatedTo: maximum 50 related thoughts allowed"

/-- The logical-consistency checks at the end of `validateThoughtData`. -/
def consistencyChecks (data : RawInput) : Except String Unit := do
  if boolTruthy data.isRevision && !numTruthy data.revisesThought then
    throw "revisesThought is required when isRevision is true"
  if numTruthy data.branchFromThought && !strTruthy data.branchId then
    throw "branchId is required when branchFromThought is specified"
  if data.verificationResult.isSome &&
      !(data.thoughtType = some ThoughtType.verification) then
    throw "verificationResult can only be used with thoughtType=verification"

/-- The record returned by `validateThoughtData` on success: the
sanitized content plus the submitted fields (defaults are never read —
success guarantees the four base fields are present). -/
def validatedOf (data : RawInput) : ThoughtData :=
  { thought := sanitizeThoughtContent (data.thought.getD "")
    thoughtNumber := data.thoughtNumber.getD 0
    totalThoughts := data.totalThoughts.getD 0
    nextThoughtNeeded := data.nextThoughtNeeded.getD false
    isRevision := data.isRevision
    revisesThought := data.revisesThought
    branchFromThought := data.branchFromThought
    branchId := data.branchId
    needsMoreThoughts := data.needsMoreThoughts
    thoughtType := data.thoughtType
    verificationResult := data.verificationResult
    relatedTo := data.relatedTo }

/-- Embeds `validateThoughtData`: the checks run in source order, the
first thrown error wins, and success returns the sanitized record. -/
def validateThoughtData (data : RawInput) : Except String ThoughtData := do
  let _ ← thoughtCheck data
  let _ ← thoughtNumberCheck data
  let _ ← totalThoughtsCheck data
  let _ ← nextThoughtNeededCheck data
  let _ ← optionalFieldChecks data
  let _ ← consistencyChecks data
  pure (validatedOf data)

/-- The directive-shape checks performed by `validateSequenceThoughtData`
before it validates the base thought fields, in source order. -/
def validateDirectives (data : RawInput) : Except String Unit := do
  if let some sid := data.sequenceId then
    if sid = "" then throw "Invalid sequenceId: must be a non-empty string"
  if let some save := data.saveSequence then
    match save.title with
    | none => throw "Invalid saveSequence.title: must be a non-empty string"
    | some t => if t = "" then
        throw "Invalid saveSequence.title: must be a non-empty string"
  if let some load := data.loadSequence then
    match load.id with
    | none => throw "Invalid loadSequence.id: must be a non-empty string"
    | some i => if i = "" then
        throw "Invalid loadSequence.id: must be a non-empty string"
  if let some search := data.searchSequence then do
    if let some q := search.query then
      if q = "" then
        throw "Invalid searchSequence.query: must be a non-empty string"
    if let some l := search.limit then
      if l < 1 || l > 50 then
        throw "Invalid searchSequence.limit: must be a number between 1 and 50"
  if let some ex := data.exportSequence then
    match ex.id with
    | none => throw "Invalid exportSequence.id: must be a non-empty string"
    | some i => if i = "" then
        throw "Invalid exportSequence.id: must be a non-empty string"
  if let some imp := data.importSequence then
    if imp.data.isNone then
      throw "Invalid importSequence.data: must be an object"

/-- The typed submission assembled by `validateSequenceThoughtData` on
success (the `getD` defaults are never read: the shape checks guarantee
the fields are present). -/
def assembledOf (data : RawInput) : SequenceThoughtData :=
  { base := validatedOf data
    sequenceId := data.sequenceId
    saveSequence := data.saveSequence.map (fun s =>
      { title := s.title.getD "", description := s.description })
    loadSequence := data.loadSequence.map (fun l => { id := l.id.getD "" })
    searchSequence := data.searchSequence.map (fun s =>
      { query := s.query, limit := s.limit, contentSearch := s.contentSearch })
    exportSequence := data.exportSequence.map (fun e => { id := e.id.getD "" })
    importSequence := data.importSequence.map (fun i =>
      { data := i.data.getD ⟨⟨"", "", none, 0, 0, SeqStatus.active, 0⟩, []⟩ }) }

/-- Embeds `validateSequenceThoughtData`: directive shape checks, then the
base thought validation, then assembly of the typed submission. -/
def validateSequenceThoughtData (data : RawInput) :
    Except String SequenceThoughtData := do
  let _ ← validateDirectives data
  let _ ← validateThoughtData data
  pure (assembledOf data)

end SeqThink.Server

namespace SeqThink.Server

/-! ## Fuzzy search (`normalizeDiacritics`, `longestCommonSubsequence`,
`calculateFuzzyScore`, `searchSequences`) -/

/-- Lower-casing as applied by `text.toLowerCase()` to the characters this
code can react to: ASCII letters, the Romanian diacritic letters of
`romanianMap` and the Cyrillic letters of `cyrillicMap`.  Other characters
are left unchanged. -/
def jsCharLower (c : Char) : Char :=
  if 'A' ≤ c && c ≤ 'Z' then Char.ofNat (c.toNat + 32)
  else if 0x410 ≤ c.val && c.val ≤ 0x42F then Char.ofNat (c.toNat + 0x20)
  else if c = 'Ё' then 'ё'
  else if c = 'Ă' then 'ă'
  else if c = 'Â' then 'â'
  else if c = 'Î' then 'î'
  else if c = 'Ș' then 'ș'
  else if c = 'Ţ' then 'ţ'
  else if c = 'Ț' then 'ț'
  else c

/-- The per-character effect of the `romanianMap` replacements (applied
after lower-casing, so only the lowercase keys can match). -/
def romanianNorm (c : Char) : String :=
  if c = 'ă' || c = 'â' then "a"
  else if c = 'î' then "i"
  else if c = 'ș' then "s"
  else if c = 'ţ' || c = 'ț' then "t"
  else String.singleton c

/-- The per-character effect of the `cyrillicMap` replacements (applied
after lower-casing; replacements are ASCII, so later entries never match
earlier output). -/
def cyrillicNorm (c : Char) : String :=
  if c = 'а' then "a" else if c = 'б' then "b" else if c = 'в' then "v"
  else if c = 'г' then "g" else if c = 'д' then "d" else if c = 'е' then "e"
  else if c = 'ё' then "yo" else if c = 'ж' then "zh" else if c = 'з' then "z"
  else if c = 'и' then "i" else if c = 'й' then "y" else if c = 'к' then "k"
  else if c = 'л' then "l" else if c = 'м' then "m" else if c = 'н' then "n"
  else if c = 'о' then "o" else if c = 'п' then "p" else if c = 'р' then "r"
  else if c = 'с' then "s" else if c = 'т' then "t" else if c = 'у' then "u"
  else if c = 'ф' then "f" else if c = 'х' then "h" else if c = 'ц' then "ts"
  else if c = 'ч' then "ch" else if c = 'ш' then "sh" else if c = 'щ' then "sch"
  else if c = 'ъ' then "" else if c = 'ы' then "y" else if c = 'ь' then ""
  else if c = 'э' then "e" else if c = 'ю' then "yu" else if c = 'я' then "ya"
  else String.singleton c

/-- Embeds `normalizeDiacritics`: lower-case, then the Romanian map, then
the Cyrillic transliteration.  Each map entry's key is a single character
and each replacement is plain ASCII, so the sequential global regex
replacements of the source amount to this single character-wise pass. -/
def normalizeDiacritics (text : String) : String :=
  String.join ((text.toList.map jsCharLower).map
    (fun c => String.join ((romanianNorm c).toList.map cyrillicNorm)))

/-- Embeds `longestCommonSubsequence`.  The source fills the standard
dynamic-programming table `dp[i][j]` over prefix lengths and returns
`dp[m][n]`; this structural recursion computes the same recurrence. -/
def lcsLen : List Char → List Char → Nat
  | [], _ => 0
  | _, [] => 0
  | a :: as, b :: bs =>
      if a = b then lcsLen as bs + 1
      else max (lcsLen as (b :: bs)) (lcsLen (a :: as) bs)

/-- JavaScript `Math.round` on an exact rational: round half toward
positive infinity. -/
def jsRound (x : ℚ) : Int := Int.floor (x + 1 / 2)

/-- JavaScript `target.includes(query)` (substring containment). -/
def jsIncludes (target query : String) : Bool :=
  decide (query.toList <:+: target.toList)

/-- JavaScript `str.split(/\s+/)`: pieces between maximal whitespace runs;
a leading or trailing run contributes an empty piece. -/
def jsSplitWs (cs : List Char) : List (List Char) :=
  go cs []
where
  go : List Char → List Char → List (List Char)
    | [], acc => [acc.reverse]
    | c :: rest, acc =>
        if jsIsWhitespace c then
          acc.reverse :: go (rest.dropWhile jsIsWhitespace) []
        else go rest (c :: acc)
  termination_by cs _ => cs.length
  decreasing_by
    · simp only [List.length_cons]
      have h : ∀ (l : List Char), (l.dropWhile jsIsWhitespace).length ≤ l.length := by
        intro l
        induction l with
        | nil => simp [List.dropWhile]
        | cons a l ih =>
          simp only [List.dropWhile]
          split
          · exact Nat.le_succ_of_le ih
          · simp
      exact Nat.lt_succ_of_le (h rest)
    · simp

/-- Embeds `calculateFuzzyScore`: exact normalized match 100, substring
containment 80, word-boundary match 60, otherwise the rounded
LCS-similarity scaled to at most 40 points. -/
def calculateFuzzyScore (query target : String) : Int :=
  let normalizedQuery := normalizeDiacritics query
  let normalizedTarget := normalizeDiacritics target
  if normalizedTarget = normalizedQuery then 100
  else if jsIncludes normalizedTarget normalizedQuery then 80
  else if (jsSplitWs normalizedTarget.toList).any
      (fun w => normalizedQuery.toList.isPrefixOf w) then 60
  else
    let commonSubsequenceLength :=
      lcsLen normalizedQuery.toList normalizedTarget.toList
    let similarity : ℚ := (commonSubsequenceLength * 2 : ℚ) /
      ((normalizedQuery.length : ℚ) + (normalizedTarget.length : ℚ))
    jsRound (similarity * 40)

/-- A scored candidate built inside `searchSequences`. -/
structure ScoredSequence where
  sequence : SequenceRecord
  score : Int
  titleScore : Int
  descriptionScore : Int
deriving DecidableEq

/-- Scores one sequence (`max` of the title score and the description
score, where an absent description scores 0). -/
def scoreSequence (query : String) (seq : SequenceRecord) : ScoredSequence :=
  let titleScore := calculateFuzzyScore query seq.title
  let descriptionScore := match seq.description with
    | some d => calculateFuzzyScore query d
    | none => 0
  { sequence := seq, score := max titleScore descriptionScore,
    titleScore := titleScore, descriptionScore := descriptionScore }

/-- Order imposed by the comparator
`(a, b) => a.score !== b.score ? b.score - a.score
          : b.lastModified - a.lastModified`:
`a` sorts no later than `b` iff the comparator is ≤ 0. -/
def scoredOrder (a b : ScoredSequence) : Prop :=
  (a.score = b.score ∧ b.sequence.lastModified ≤ a.sequence.lastModified) ∨
  (a.score ≠ b.score ∧ b.score ≤ a.score)

instance : DecidableRel scoredOrder := fun a b => by
  unfold scoredOrder; infer_instance

instance : IsTotal ScoredSequence scoredOrder where
  total a b := by
    unfold scoredOrder
    rcases eq_or_ne a.score b.score with h | h
    · rcases le_total b.sequence.lastModified a.sequence.lastModified with h2 | h2
      · exact Or.inl (Or.inl ⟨h, h2⟩)
      · exact Or.inr (Or.inl ⟨h.symm, h2⟩)
    · rcases le_total b.score a.score with h2 | h2
      · exact Or.inl (Or.inr ⟨h, h2⟩)
      · exact Or.inr (Or.inr ⟨h.symm, h2⟩)

instance : IsTrans ScoredSequence scoredOrder where
  trans a b c hab hbc := by
    unfold scoredOrder at *
    rcases hab with ⟨h1, h2⟩ | ⟨h1, h2⟩ <;> rcases hbc with ⟨h3, h4⟩ | ⟨h3, h4⟩
    · exact Or.inl ⟨h1.trans h3, h4.trans h2⟩
    · exact Or.inr ⟨by omega, by omega⟩
    · exact Or.inr ⟨by omega, by omega⟩
    · exact Or.inr ⟨by omega, by omega⟩

/-- Order imposed by `ORDER BY lastModified DESC`. -/
def byLastModifiedDesc (a b : SequenceRecord) : Prop :=
  b.lastModified ≤ a.lastModified

instance : DecidableRel byLastModifiedDesc := fun a b => by
  unfold byLastModifiedDesc; infer_instance

instance : IsTotal SequenceRecord byLastModifiedDesc where
  total a b := le_total b.lastModified a.lastModified

instance : IsTrans SequenceRecord byLastModifiedDesc where
  trans _ _ _ hab hbc := le_trans hbc hab

/-- The fuzzy branch of `searchSequences`: score every stored sequence,
keep scores above 20, sort by the comparator, truncate to `limit`, and
return the records.  A stable sort models the (stable) JavaScript
`Array.prototype.sort`. -/
def searchSequencesFuzzy (query : String) (rows : List SequenceRecord)
    (limit : Nat) : List SequenceRecord :=
  let scored := rows.map (scoreSequence query)
  let filtered := scored.filter (fun item => item.score > 20)
  let sorted := List.insertionSort scoredOrder filtered
  (sorted.take limit).map (·.sequence)

end SeqThink.Server

namespace SeqThink.Server

/-! ## Persistence layer (sqlite tables as lists of rows)

`generateId()` results are supplied through an `ids : Nat → String`
parameter (index `k` is the `k`-th `generateId()` call of the operation);
`new Date()` timestamps through a `now : Nat` parameter.  An `INSERT`
rejects on a primary-key collision, mirroring sqlite's UNIQUE constraint;
everything already inserted stays (the source runs no transaction). -/

/-- The two tables of `sequences.db`. -/
structure Db where
  sequences : List SequenceRecord
  thoughts : List ThoughtRow
deriving DecidableEq

/-- `INSERT INTO sequences`: fails if the primary key exists. -/
def insertSequenceRow (db : Db) (row : SequenceRecord) : Except String Db :=
  if db.sequences.any (fun s => s.id = row.id) then
    .error "UNIQUE constraint failed: sequences.id"
  else .ok { db with sequences := db.sequences ++ [row] }

/-- `INSERT INTO thoughts`: fails if the primary key exists. -/
def insertThoughtRow (db : Db) (row : ThoughtRow) : Except String Db :=
  if db.thoughts.any (fun t => t.id = row.id) then
    .error "UNIQUE constraint failed: thoughts.id"
  else .ok { db with thoughts := db.thoughts ++ [row] }

/-- Embeds `createSequence`: insert a fresh row; `status` and
`thoughtCount` take their table defaults `'active'` and `0`. -/
def createSequence (db : Db) (newId : String) (now : Nat) (title : String)
    (description : Option String) : Except String (String × Db) :=
  (insertSequenceRow db
    { id := newId, title := title, description := description,
      created := now, lastModified := now, status := SeqStatus.active,
      thoughtCount := 0 }).map (fun db' => (newId, db'))

/-- Embeds `loadSequence` (`SELECT * FROM sequences WHERE id = ?`). -/
def loadSequence (db : Db) (id : String) : Option SequenceRecord :=
  db.sequences.find? (fun s => s.id = id)

/-- `ORDER BY thoughtNumber ASC`. -/
def byThoughtNumberAsc (a b : ThoughtRow) : Prop :=
  a.thoughtNumber ≤ b.thoughtNumber

instance : DecidableRel byThoughtNumberAsc := fun a b => by
  unfold byThoughtNumberAsc; infer_instance

instance : IsTotal ThoughtRow byThoughtNumberAsc where
  total a b := le_total a.thoughtNumber b.thoughtNumber

instance : IsTrans ThoughtRow byThoughtNumberAsc where
  trans _ _ _ hab hbc := le_trans hab hbc

/-- Embeds `loadSequenceThoughts` (`SELECT * FROM thoughts WHERE
sequenceId = ? ORDER BY thoughtNumber ASC`; a stable sort over the
insertion-ordered rows). -/
def loadSequenceThoughts (db : Db) (sequenceId : String) : List ThoughtRow :=
  List.insertionSort byThoughtNumberAsc
    (db.thoughts.filter (fun t => t.sequenceId = sequenceId))

/-- The row-to-record conversion performed by `loadSequenceThoughts`
(`Boolean(row.isRevision)` turns the stored integers into booleans). -/
def rowToData (r : ThoughtRow) : ThoughtData :=
  { thought := r.thought
    thoughtNumber := r.thoughtNumber
    totalThoughts := r.totalThoughts
    isRevision := some r.isRevision
    revisesThought := r.revisesThought
    branchFromThought := r.branchFromThought
    branchId := r.branchId
    needsMoreThoughts := some r.needsMoreThoughts
    nextThoughtNeeded := r.nextThoughtNeeded
    thoughtType := r.thoughtType
    verificationResult := r.verificationResult
    relatedTo := r.relatedTo }

/-- Embeds `exportSequence`: load the record and its ordered thoughts. -/
def exportSequence (db : Db) (sequenceId : String) :
    Except String ImportBundle :=
  match loadSequence db sequenceId with
  | none => .error ("Sequence with id " ++ sequenceId ++ " not found")
  | some seq => .ok { sequence := seq, thoughts := loadSequenceThoughts db sequenceId }

/-- The row written by `saveThought` for a validated submission
(`thought.isRevision ? 1 : 0` stores the truthiness of the optional
field). -/
def mkThoughtRow (id sequenceId : String) (now : Nat) (t : ThoughtData) :
    ThoughtRow :=
  { id := id, sequenceId := sequenceId, thought := t.thought,
    thoughtNumber := t.thoughtNumber, totalThoughts := t.totalThoughts,
    isRevision := boolTruthy t.isRevision,
    revisesThought := t.revisesThought,
    branchFromThought := t.branchFromThought, branchId := t.branchId,
    needsMoreThoughts := boolTruthy t.needsMoreThoughts,
    nextThoughtNeeded := t.nextThoughtNeeded, thoughtType := t.thoughtType,
    verificationResult := t.verificationResult, relatedTo := t.relatedTo,
    created := now, modified := now }

/-- Embeds `saveThought`. -/
def saveThought (db : Db) (id : String) (now : Nat) (t : ThoughtData)
    (sequenceId : String) : Except String Db :=
  insertThoughtRow db (mkThoughtRow id sequenceId now t)

/-- Embeds `updateSequenceModified` (`UPDATE sequences SET lastModified =
?, thoughtCount = ? WHERE id = ?`; an `UPDATE` matching no row still
succeeds). -/
def updateSequenceModified (db : Db) (sequenceId : String) (now : Nat)
    (thoughtCount : Nat) : Db :=
  { db with sequences := db.sequences.map (fun s =>
      if s.id = sequenceId then
        { s with lastModified := now, thoughtCount := thoughtCount }
      else s) }

/-- Sequential insertion loop shared by `importSequence` (callback chain
`insertNextThought`) and the `saveSequence` handler (serial `await` loop):
stop at the first failure, keeping every row already inserted (there is no
surrounding transaction in the source). -/
def insertRowsSeq : List ThoughtRow → Db → Except String Unit × Db
  | [], db => (.ok (), db)
  | r :: rest, db =>
      match insertThoughtRow db r with
      | .error e => (.error e, db)
      | .ok db' => insertRowsSeq rest db'

/-- Embeds `importSequence`: allocate a fresh sequence id, insert the
sequence row with `thoughtCount` set to the number of bundled thoughts,
then insert every bundled thought under a fresh id, re-parented to the
new sequence, in bundle order. -/
def importSequence (ids : Nat → String) (now : Nat) (bundle : ImportBundle)
    (db : Db) : Except String String × Db :=
  let newSequenceId := ids 0
  match insertSequenceRow db
      { id := newSequenceId, title := bundle.sequence.title,
        description := bundle.sequence.description, created := now,
        lastModified := now, status := SeqStatus.active,
        thoughtCount := bundle.thoughts.length } with
  | .error e => (.error e, db)
  | .ok db1 =>
      let rows := bundle.thoughts.enum.map (fun p =>
        { p.2 with id := ids (p.1 + 1), sequenceId := newSequenceId,
                   created := now, modified := now })
      match insertRowsSeq rows db1 with
      | (.error e, db2) => (.error e, db2)
      | (.ok _, db2) => (.ok newSequenceId, db2)

/-- The sqlite FTS5 `MATCH` operator is external to this repository; it is
abstracted as substring containment of the query in the thought content,
which is all the claims need (no claim exercises content search). -/
def ftsMatch (query content : String) : Bool :=
  jsIncludes content query

/-- Embeds `searchSequences`: no (or blank) query lists sequences by
recency; `contentSearch` consults the full-text index; otherwise the fuzzy
pipeline runs over every stored sequence.  Returns the result list and its
`totalCount`. -/
def searchSequences (db : Db) (query : Option String) (limit : Nat)
    (contentSearch : Bool) : List SequenceRecord × Nat :=
  let blank := match query with
    | none => true
    | some q => q = "" || jsTrim q.toList = []
  if blank then
    let results := (List.insertionSort byLastModifiedDesc db.sequences).take limit
    (results, results.length)
  else
    let q := query.getD ""
    if contentSearch then
      let matching := db.sequences.filter (fun s =>
        db.thoughts.any (fun t => t.sequenceId = s.id && ftsMatch q t.thought))
      let results := (List.insertionSort byLastModifiedDesc matching).take limit
      (results, results.length)
    else
      let results := searchSequencesFuzzy q db.sequences limit
      (results, results.length)

end SeqThink.Server

namespace SeqThink.Server

/-! ## In-memory state, eviction and the engine entry point -/

/-- The three memory limits (`MAX_THOUGHT_HISTORY`, `MAX_BRANCHES`,
`MAX_THOUGHTS_PER_BRANCH`; defaults 1000 / 50 / 100). -/
structure Limits where
  maxThoughtHistory : Nat
  maxBranches : Nat
  maxThoughtsPerBranch : Nat
deriving DecidableEq

/-- The `branches` record: a JavaScript object maps string keys to thought
lists, keys kept in insertion order. -/
abbrev Branches := List (String × List ThoughtData)

/-- Object property read `branches[branchId]`. -/
def branchGet (bs : Branches) (k : String) : Option (List ThoughtData) :=
  (List.find? (fun p => p.1 = k) bs).map (·.2)

/-- Object key listing `Object.keys(branches)` (insertion order). -/
def branchKeys (bs : Branches) : List String :=
  List.map (·.1) bs

/-- The source's branch append: create an empty list for a new key, then
`push` (a new key lands at the end of the insertion order). -/
def branchPush (bs : Branches) (k : String) (t : ThoughtData) : Branches :=
  if (List.find? (fun p => p.1 = k) bs).isSome then
    List.map (fun p => if p.1 = k then (p.1, p.2 ++ [t]) else p) bs
  else bs ++ [(k, [t])]

/-- The complete in-memory and durable state of one
`SequentialThinkingServer` instance. -/
structure ServerState where
  thoughtHistory : List ThoughtData
  branches : Branches
  currentSequenceId : Option String
  db : Db

/-- The state of a freshly constructed server over an empty database. -/
def initialState : ServerState :=
  { thoughtHistory := [], branches := [], currentSequenceId := none,
    db := ⟨[], []⟩ }

/-- Embeds `cleanupOldThoughts`: trim the main line to the most recent
`maxThoughtHistory` entries (JavaScript `slice(-max)`). -/
def cleanupOldThoughts (maxThoughtHistory : Nat)
    (history : List ThoughtData) : List ThoughtData :=
  if history.length > maxThoughtHistory then
    jsSliceLast history maxThoughtHistory
  else history

/-- Recency rank of a branch used by `cleanupOldBranches`: the thought
number of the branch's last entry.  Branch lists built by this server are
never empty; the 0 default stands in for the crash the source would
suffer on an empty list. -/
def branchLastNumber (p : String × List ThoughtData) : Int :=
  match p.2.getLast? with
  | some t => t.thoughtNumber
  | none => 0

/-- Order imposed by the comparator
`(a, b) => bLastThought.thoughtNumber - aLastThought.thoughtNumber`
(descending last thought number). -/
def branchRecency (a b : String × List ThoughtData) : Prop :=
  branchLastNumber b ≤ branchLastNumber a

instance : DecidableRel branchRecency := fun a b => by
  unfold branchRecency; infer_instance

instance : IsTotal (String × List ThoughtData) branchRecency where
  total a b := le_total (branchLastNumber b) (branchLastNumber a)

instance : IsTrans (String × List ThoughtData) branchRecency where
  trans _ _ _ hab hbc := le_trans hbc hab

/-- Embeds `cleanupOldBranches`: if over the branch limit, delete the
branches ranking lowest by last thought number (`delete` preserves the
remaining keys' insertion order); then trim every remaining branch to its
most recent `maxThoughtsPerBranch` entries. -/
def cleanupOldBranches (cfg : Limits) (bs : Branches) : Branches :=
  let bs1 :=
    if bs.length > cfg.maxBranches then
      let sortedIds := (List.insertionSort branchRecency bs).map (·.1)
      let toRemove := sortedIds.drop cfg.maxBranches
      bs.filter (fun p => !(toRemove.contains p.1))
    else bs
  bs1.map (fun p =>
    (p.1,
     if p.2.length > cfg.maxThoughtsPerBranch then
       jsSliceLast p.2 cfg.maxThoughtsPerBranch
     else p.2))

/-- Embeds `validateBranchLimits`: reject a brand-new branch when already
at the branch limit. -/
def validateBranchLimits (cfg : Limits) (bs : Branches) (branchId : String) :
    Except String Unit :=
  if bs.length ≥ cfg.maxBranches && !(branchGet bs branchId).isSome then
    .error ("Maximum number of branches (" ++ toString cfg.maxBranches ++
      ") exceeded")
  else .ok ()

/-- The four counters of `getVerificationStatus`.  The source's `partial`
field is a Lean keyword and is rendered as `partialCount`. -/
structure VerificationStatus where
  confirmed : Nat
  refuted : Nat
  partialCount : Nat
  pending : Nat
deriving DecidableEq

/-- Embeds `getVerificationStatus`: count the verification thoughts of the
main line by their (present) `verificationResult`. -/
def getVerificationStatus (history : List ThoughtData) : VerificationStatus :=
  history.foldl (fun st t =>
    if t.thoughtType = some ThoughtType.verification then
      match t.verificationResult with
      | some VerificationResult.confirmed => { st with confirmed := st.confirmed + 1 }
      | some VerificationResult.refuted => { st with refuted := st.refuted + 1 }
      | some VerificationResult.partialResult =>
          { st with partialCount := st.partialCount + 1 }
      | some VerificationResult.pending => { st with pending := st.pending + 1 }
      | none => st
    else st) ⟨0, 0, 0, 0⟩

/-- Embeds `getHypothesesNeedingVerification`: the hypothesis thoughts of
the main line that no verification thought's `relatedTo` mentions. -/
def getHypothesesNeedingVerification (history : List ThoughtData) :
    List ThoughtData :=
  let hypotheses := history.filter (fun t =>
    t.thoughtType = some ThoughtType.hypothesis)
  let verifications := history.filter (fun t =>
    t.thoughtType = some ThoughtType.verification)
  hypotheses.filter (fun h =>
    !(verifications.any (fun v =>
      match v.relatedTo with
      | some l => decide (h.thoughtNumber ∈ l)
      | none => false)))

/-- The 100-character preview used for unverified hypotheses in
responses. -/
def hypothesisPreview (s : String) : String :=
  String.mk (s.toList.take 100) ++ (if s.length > 100 then "..." else "")

/-- One entry of the `unverifiedHypotheses` response array. -/
structure UnverifiedHypothesis where
  thoughtNumber : Int
  thought : String
deriving DecidableEq

/-- The thought-acceptance payload returned by `processThought` (the
`memoryStatus` echo of the static limits is omitted). -/
structure ThoughtResponse where
  thoughtNumber : Int
  totalThoughts : Int
  nextThoughtNeeded : Bool
  thoughtType : Option ThoughtType
  verificationResult : Option VerificationResult
  isRevision : Option Bool
  branches : List String
  thoughtHistoryLength : Nat
  relatedTo : Option (List Int)
  branchId : Option String
  currentSequenceId : Option String
  persistenceEnabled : Bool
  verificationStatus : VerificationStatus
  unverifiedHypothesesCount : Nat
  unverifiedHypotheses : List UnverifiedHypothesis
deriving DecidableEq

/-- The success payloads of `processThought`, one per handled directive
plus thought acceptance. -/
inductive Response where
  | searched (results : List SequenceRecord) (totalCount : Nat)
  | exported (bundle : ImportBundle)
  | imported (sequenceId : String) (thoughtCount : Nat)
  | loaded (sequence : SequenceRecord) (thoughtsLoaded : Nat)
  | saved (sequenceId : String) (thoughtsSaved : Nat)
  | thoughtAccepted (r : ThoughtResponse)
deriving DecidableEq

/-- JavaScript `x || d` for an optional number. -/
def numOrDefault (o : Option Int) (d : Int) : Int :=
  if numTruthy o then o.getD d else d

end SeqThink.Server

namespace SeqThink.Server

/-- Branch rebuild performed by the `loadSequence` handler: replay the
loaded thoughts into a fresh `branches` record. -/
def rebuildBranches (history : List ThoughtData) : Branches :=
  history.foldl (fun bs t =>
    if numTruthy t.branchFromThought && strTruthy t.branchId then
      branchPush bs (t.branchId.getD "") t
    else bs) []

/-- The `totalThoughts` auto-adjustment at the top of the thought path
(`if (thoughtNumber > totalThoughts) totalThoughts = thoughtNumber`). -/
def autoAdjust (t : ThoughtData) : ThoughtData :=
  if t.thoughtNumber > t.totalThoughts then
    { t with totalThoughts := t.thoughtNumber }
  else t

/-- The response assembled at the end of the thought path (after memory
cleanup). -/
def mkThoughtResponse (t : ThoughtData) (s : ServerState)
    (history : List ThoughtData) (bs : Branches) : ThoughtResponse :=
  let unverified := getHypothesesNeedingVerification history
  { thoughtNumber := t.thoughtNumber
    totalThoughts := t.totalThoughts
    nextThoughtNeeded := t.nextThoughtNeeded
    thoughtType := t.thoughtType
    verificationResult := t.verificationResult
    isRevision := t.isRevision
    branches := branchKeys bs
    thoughtHistoryLength := history.length
    relatedTo := t.relatedTo
    branchId := t.branchId
    currentSequenceId := s.currentSequenceId
    persistenceEnabled := s.currentSequenceId.isSome
    verificationStatus := getVerificationStatus history
    unverifiedHypothesesCount := unverified.length
    unverifiedHypotheses := unverified.map (fun h =>
      { thoughtNumber := h.thoughtNumber,
        thought := hypothesisPreview h.thought }) }

/-- Embeds `processThought`, the engine entry point: validate, handle at
most one management directive (search > export > import > load > save in
source order), otherwise append the thought to the main line (and its
branch), persist it when a sequence is active, prune memory and build the
acceptance payload.  A thrown error anywhere surfaces as the `.error`
result; mutations already applied at that point remain, exactly as in the
source. -/
def processThought (cfg : Limits) (ids : Nat → String) (now : Nat)
    (input : RawInput) (s : ServerState) :
    Except String Response × ServerState :=
  match validateSequenceThoughtData input with
  | .error e => (.error e, s)
  | .ok v =>
    if let some search := v.searchSequence then
      let (results, totalCount) := searchSequences s.db search.query
        (numOrDefault search.limit 10).toNat (boolTruthy search.contentSearch)
      (.ok (.searched results totalCount), s)
    else if let some ex := v.exportSequence then
      match exportSequence s.db ex.id with
      | .error e => (.error e, s)
      | .ok bundle => (.ok (.exported bundle), s)
    else if let some imp := v.importSequence then
      match importSequence ids now imp.data s.db with
      | (.error e, db') => (.error e, { s with db := db' })
      | (.ok newId, db') =>
          (.ok (.imported newId imp.data.thoughts.length), { s with db := db' })
    else if let some load := v.loadSequence then
      match loadSequence s.db load.id with
      | none => (.error ("Sequence not found: " ++ load.id), s)
      | some seq =>
          let rows := loadSequenceThoughts s.db seq.id
          let history := rows.map rowToData
          (.ok (.loaded seq rows.length),
           { s with thoughtHistory := history,
                    branches := rebuildBranches history,
                    currentSequenceId := some seq.id })
    else if let some save := v.saveSequence then
      match createSequence s.db (ids 0) now save.title save.description with
      | .error e => (.error e, s)
      | .ok (sid, db1) =>
          let rows := s.thoughtHistory.enum.map (fun p =>
            mkThoughtRow (ids (p.1 + 1)) sid now p.2)
          match insertRowsSeq rows db1 with
          | (.error e, db2) => (.error e, { s with db := db2 })
          | (.ok _, db2) =>
              let db3 := updateSequenceModified db2 sid now
                s.thoughtHistory.length
              (.ok (.saved sid s.thoughtHistory.length),
               { s with db := db3, currentSequenceId := some sid })
    else
      let t := autoAdjust v.base
      let isBranch := numTruthy t.branchFromThought && strTruthy t.branchId
      match (if isBranch then
               validateBranchLimits cfg s.branches (t.branchId.getD "")
             else .ok ()) with
      | .error e => (.error e, s)
      | .ok _ =>
          let history1 := s.thoughtHistory ++ [t]
          let branches1 :=
            if isBranch then branchPush s.branches (t.branchId.getD "") t
            else s.branches
          let persisted : Except String Db :=
            if strTruthy s.currentSequenceId then
              match saveThought s.db (ids 0) now t
                  (s.currentSequenceId.getD "") with
              | .error e => .error e
              | .ok db1 =>
                  .ok (updateSequenceModified db1
                    (s.currentSequenceId.getD "") now history1.length)
            else .ok s.db
          match persisted with
          | .error e =>
              (.error e,
               { s with thoughtHistory := history1, branches := branches1 })
          | .ok db' =>
              let history2 := cleanupOldThoughts cfg.maxThoughtHistory history1
              let branches2 := cleanupOldBranches cfg branches1
              (.ok (.thoughtAccepted
                 (mkThoughtResponse t s history2 branches2)),
               { thoughtHistory := history2, branches := branches2,
                 currentSequenceId := s.currentSequenceId, db := db' })

/-- True when an `Except` carries a success. -/
def isOkE : Except String α → Bool
  | .ok _ => true
  | .error _ => false

/-- A submission with no management directive attached. -/
def noDirectives (input : RawInput) : Prop :=
  input.saveSequence = none ∧ input.loadSequence = none ∧
  input.searchSequence = none ∧ input.exportSequence = none ∧
  input.importSequence = none

instance (input : RawInput) : Decidable (noDirectives input) := by
  unfold noDirectives; infer_instance

/-- The main-line entry appended for a validated plain submission: the
sanitized record after the `totalThoughts` auto-adjustment. -/
def pushedThought (input : RawInput) : ThoughtData :=
  autoAdjust (validatedOf input)

/-- A submission that validates and takes the plain thought path with no
branch fields. -/
def plainSubmission (input : RawInput) : Prop :=
  isOkE (validateSequenceThoughtData input) = true ∧ noDirectives input ∧
  numTruthy input.branchFromThought = false

instance (input : RawInput) : Decidable (plainSubmission input) := by
  unfold plainSubmission; infer_instance

/-- The last `n` entries of a list, in order. -/
def takeLast (n : Nat) (l : List α) : List α :=
  l.drop (l.length - n)

/-- Iterated `processThought` over a list of submissions, keeping the
state. -/
def foldProcess (cfg : Limits) (ids : Nat → String) (now : Nat)
    (inputs : List RawInput) (s : ServerState) : ServerState :=
  inputs.foldl (fun st i => (processThought cfg ids now i st).2) s

/-- Every submission of the run is accepted, in order. -/
def stepsAccepted (cfg : Limits) (ids : Nat → String) (now : Nat) :
    List RawInput → ServerState → Bool
  | [], _ => true
  | i :: rest, st =>
      match processThought cfg ids now i st with
      | (.ok _, st') => stepsAccepted cfg ids now rest st'
      | (.error _, _) => false

end SeqThink.Server

namespace SeqThink.Sample

open SeqThink.Manager SeqThink.Server

/-! ## Concrete fixtures

Concrete submissions, sessions and server runs used to instantiate the
theorems below on explicit inputs. -/

/-- A plain manager submission with the given content and numbering. -/
def plainParams (content : String) (n total : Int) : ThoughtParams :=
  { thought := content, thoughtNumber := n, totalThoughts := total,
    nextThoughtNeeded := true, isRevision := none, revisesThought := none,
    branchFromThought := none, branchId := none, thoughtType := none,
    relatedTo := none, verificationResult := none }

/-- Runs one accepted `addThought` step, keeping the session on error. -/
def mgrStep (s : ThinkingSession) (p : ThoughtParams) : ThinkingSession :=
  match addThought s p with
  | .ok (_, s') => s'
  | .error _ => s

/-- Session holding the single plain thought number 1. -/
def sessionOne : ThinkingSession :=
  mgrStep emptySession (plainParams "one" 1 1)

/-- Session holding the single plain thought number 5. -/
def sessionFive : ThinkingSession :=
  mgrStep emptySession (plainParams "five" 5 5)

/-- The hypothesis submission recorded in `sessionHyp`. -/
def hypParams : ThoughtParams :=
  { plainParams "maybe the cache is stale" 1 2 with
    thoughtType := some ThoughtType.hypothesis }

/-- Session holding a hypothesis numbered 1. -/
def sessionHyp : ThinkingSession :=
  mgrStep emptySession hypParams

/-- The manager revision submission that revises thought 5. -/
def reviseFiveParams : ThoughtParams :=
  { plainParams "revised five" 6 6 with
    isRevision := some true, revisesThought := some 5 }

/-- A plain server submission (no directives, no branch fields). -/
def plainRaw (content : String) (n total : Int) : RawInput :=
  { thought := some content, thoughtNumber := some n,
    totalThoughts := some total, nextThoughtNeeded := some true,
    isRevision := none, revisesThought := none, branchFromThought := none,
    branchId := none, needsMoreThoughts := none, thoughtType := none,
    verificationResult := none, relatedTo := none, sequenceId := none,
    saveSequence := none, loadSequence := none, searchSequence := none,
    exportSequence := none, importSequence := none }

/-- The source's default limits (`MAX_THOUGHT_HISTORY=1000`,
`MAX_BRANCHES=50`, `MAX_THOUGHTS_PER_BRANCH=100`). -/
def cfgDefault : Limits :=
  { maxThoughtHistory := 1000, maxBranches := 50, maxThoughtsPerBranch := 100 }

/-- A fixed id supply for runs that never touch the database. -/
def anyIds : Nat → String := fun _ => "unused-id"

/-- Runs one `processThought` call, keeping only the state. -/
def serverStep (input : RawInput) (s : ServerState) : ServerState :=
  (processThought cfgDefault anyIds 0 input s).2

/-- The server submission `isRevision=true, revisesThought=5` on an empty
history (thought 5 does not exist). -/
def reviseFiveRaw : RawInput :=
  { plainRaw "revised five" 1 1 with
    isRevision := some true, revisesThought := some 5 }

/-- A five-thought main line built through `processThought`. -/
def stateFive : ServerState :=
  serverStep (plainRaw "five" 5 5)
    (serverStep (plainRaw "four" 4 5)
      (serverStep (plainRaw "three" 3 5)
        (serverStep (plainRaw "two" 2 5)
          (serverStep (plainRaw "one" 1 5) initialState))))

/-- The branch-starting submission: fork from thought 3 under the fresh
branch id `b1`. -/
def branchRaw : RawInput :=
  { plainRaw "branch thought" 6 6 with
    branchFromThought := some 3, branchId := some "b1" }

/-! Fixtures for the export/import round trip: save a sequence, submit
three thoughts under `maxThoughtHistory = 1`, export, re-import. -/

/-- Limits with a main-line capacity of one thought. -/
def cfgTiny : Limits :=
  { maxThoughtHistory := 1, maxBranches := 50, maxThoughtsPerBranch := 100 }

/-- The `saveSequence` directive submission opening sequence `s1`. -/
def saveRaw : RawInput :=
  { plainRaw "seed" 1 3 with
    saveSequence := some { title := some "T", description := none } }

/-- State after saving the (empty) sequence `s1`. -/
def rtState0 : ServerState :=
  (processThought cfgTiny (fun _ => "s1") 0 saveRaw initialState).2

/-- State after the first persisted thought. -/
def rtState1 : ServerState :=
  (processThought cfgTiny (fun _ => "i1") 1 (plainRaw "one" 1 3) rtState0).2

/-- State after the second persisted thought (the main line is already
pruned to one entry, while the database keeps both rows). -/
def rtState2 : ServerState :=
  (processThought cfgTiny (fun _ => "i2") 2 (plainRaw "two" 2 3) rtState1).2

/-- State after the third persisted thought: sequence `s1` stores
`thoughtCount = 2` while three thought rows exist. -/
def rtState3 : ServerState :=
  (processThought cfgTiny (fun _ => "i3") 3 (plainRaw "three" 3 3) rtState2).2

/-- The bundle exported from sequence `s1` (taking the `.ok` payload). -/
def rtBundle : ImportBundle :=
  match exportSequence rtState3.db "s1" with
  | .ok b => b
  | .error _ => { sequence := ⟨"", "", none, 0, 0, SeqStatus.active, 0⟩, thoughts := [] }

/-- Importing the exported bundle under fresh ids (`n0`, `n1`, ...). -/
def rtImport : Except String String × Db :=
  importSequence (fun n => "n" ++ toString n) 9 rtBundle rtState3.db

/-- A verification submission referencing hypothesis 1 with a confirmed
result. -/
def verifyParams : ThoughtParams :=
  { plainParams "the cache was indeed stale" 2 2 with
    thoughtType := some ThoughtType.verification,
    relatedTo := some [1],
    verificationResult := some VerificationResult.confirmed }

/-- A server submission with an out-of-range `thoughtNumber`. -/
def badNumberRaw : RawInput :=
  { plainRaw "x" 0 1 with thoughtNumber := some 0 }

/-- A directive-only submission: an `exportSequence` directive with none
of the base thought fields. -/
def directiveOnlyRaw : RawInput :=
  { thought := none, thoughtNumber := none, totalThoughts := none,
    nextThoughtNeeded := none, isRevision := none, revisesThought := none,
    branchFromThought := none, branchId := none, needsMoreThoughts := none,
    thoughtType := none, verificationResult := none, relatedTo := none,
    sequenceId := none, saveSequence := none, loadSequence := none,
    searchSequence := none, exportSequence := some { id := some "seq-1" },
    importSequence := none }

/-- A one-thought main line. -/
def stateOne : ServerState :=
  serverStep (plainRaw "one" 1 1) initialState

/-- A branch submission forking from thought 1 under branch id `alt-1`. -/
def branchAltRaw : RawInput :=
  { plainRaw "alternative" 2 2 with
    branchFromThought := some 1, branchId := some "alt-1" }

/-- Two stored sequences with similar titles for the search fixtures. -/
def seqStrategy : SequenceRecord :=
  { id := "a", title := "Strategy", description := none, created := 0,
    lastModified := 5, status := SeqStatus.active, thoughtCount := 1 }

/-- A second stored sequence, modified more recently. -/
def seqStrategicPlan : SequenceRecord :=
  { id := "b", title := "Strategic Plan", description := none, created := 0,
    lastModified := 9, status := SeqStatus.active, thoughtCount := 2 }

end SeqThink.Sample

namespace SeqThink.Proofs

open SeqThink.Manager SeqThink.Server SeqThink.Sample

/-! ## Helper lemmas -/

/-- Splitting an `Except` bind that succeeded. -/
theorem except_bind_ok {ε α β : Type} {a : Except ε α} {f : α → Except ε β}
    {b : β} (h : (a >>= f) = .ok b) : ∃ x, a = .ok x ∧ f x = .ok b := by
  cases a with
  | error e => simp [Bind.bind, Except.bind] at h
  | ok x => exact ⟨x, rfl, by simpa [Bind.bind, Except.bind] using h⟩

/-- An `Except` is either a success or a failure. -/
theorem except_ok_or_error {ε α : Type} (a : Except ε α) :
    (∃ x, a = .ok x) ∨ (∃ e, a = .error e) := by
  cases a with
  | error e => exact Or.inr ⟨e, rfl⟩
  | ok x => exact Or.inl ⟨x, rfl⟩

/-- `validateThoughtSequence` succeeds exactly when its four blocks do. -/
theorem validateThoughtSequence_ok_iff
    {session : ThinkingSession} {params : ThoughtParams} :
    validateThoughtSequence session params = .ok () ↔
      duplicateCheck session params = .ok () ∧
      revisionCheck session params = .ok () ∧
      branchCheck session params = .ok () ∧
      verificationCheck session params = .ok () := by
  unfold validateThoughtSequence
  cases h1 : duplicateCheck session params with
  | error e => simp [h1, Bind.bind, Except.bind]
  | ok u =>
    cases h2 : revisionCheck session params with
    | error e => simp [h2, Bind.bind, Except.bind]
    | ok u2 =>
      cases h3 : branchCheck session params with
      | error e => simp [h3, Bind.bind, Except.bind]
      | ok u3 =>
        cases h4 : verificationCheck session params with
        | error e => simp [h4, Bind.bind, Except.bind]
        | ok u4 => simp [Bind.bind, Except.bind]

/-- Successful `addThought` runs return exactly the validated push. -/
theorem addThought_ok_iff {session : ThinkingSession} {params : ThoughtParams}
    {out : ThoughtState × ThinkingSession} :
    addThought session params = .ok out ↔
      validateThoughtSequence session params = .ok () ∧
      out = (mkThoughtState params, sessionAfter session params) := by
  unfold addThought sessionAfter
  cases h : validateThoughtSequence session params with
  | error e => simp [h, Bind.bind, Except.bind]
  | ok u =>
    cases u
    simp [h, Bind.bind, Except.bind, Pure.pure, Except.pure, eq_comm]

/-- A failing `validateThoughtSequence` makes `addThought` fail with the
same message, leaving no session to return. -/
theorem addThought_error {session : ThinkingSession} {params : ThoughtParams}
    {e : String} (h : validateThoughtSequence session params = .error e) :
    addThought session params = .error e := by
  unfold addThought
  simp [h, Bind.bind, Except.bind]

end SeqThink.Proofs

namespace SeqThink.Proofs

open SeqThink.Manager SeqThink.Server SeqThink.Sample

theorem mapGet_replace_ne {k n : Int} (v : ThoughtState) (hne : n ≠ k) :
    ∀ m : List (Int × ThoughtState),
      mapGet (m.map (fun p => if p.1 = k then (k, v) else p)) n = mapGet m n := by
  intro m
  induction m with
  | nil => rfl
  | cons p m ih =>
    by_cases hp : p.1 = k
    · simp only [List.map_cons, if_pos hp, mapGet, List.find?]
      have h1 : (decide (k = n)) = false := by simp [Ne.symm hne]
      have h2 : (decide (p.1 = n)) = false := by simp [hp, Ne.symm hne]
      simp only [h1, h2]
      simpa [mapGet] using ih
    · simp only [List.map_cons, if_neg hp, mapGet, List.find?]
      by_cases hpn : p.1 = n
      · simp [hpn]
      · simp only [decide_eq_false hpn]
        simpa [mapGet] using ih

theorem mapGet_replace_eq {k : Int} (v : ThoughtState) :
    ∀ m : List (Int × ThoughtState), (m.any (fun p => p.1 = k)) = true →
      mapGet (m.map (fun p => if p.1 = k then (k, v) else p)) k = some v := by
  intro m
  induction m with
  | nil => simp
  | cons p m ih =>
    intro hany
    by_cases hp : p.1 = k
    · simp [List.map_cons, if_pos hp, mapGet, List.find?]
    · simp only [List.map_cons, if_neg hp, mapGet, List.find?,
        decide_eq_false hp]
      have hany' : (m.any (fun p => p.1 = k)) = true := by
        simpa [List.any_cons, hp] using hany
      simpa [mapGet] using ih hany'

theorem mapGet_append_single {k n : Int} (v : ThoughtState) :
    ∀ m : List (Int × ThoughtState),
      mapGet (m ++ [(k, v)]) n =
        match mapGet m n with
        | some w => some w
        | none => if n = k then some v else none := by
  intro m
  induction m with
  | nil =>
    by_cases h : n = k
    · simp [mapGet, List.find?, h]
    · simp [mapGet, List.find?, h, Ne.symm h]
  | cons p m ih =>
    by_cases hpn : p.1 = n
    · simp [mapGet, List.find?, hpn]
    · simp only [List.cons_append, mapGet, List.find?, decide_eq_false hpn]
      simpa [mapGet] using ih

/-- Reading through `mapSet`: the written key returns the new value, any
other key is untouched. -/
theorem mapGet_mapSet (m : List (Int × ThoughtState)) (k n : Int)
    (v : ThoughtState) :
    mapGet (mapSet m k v) n = if n = k then some v else mapGet m n := by
  unfold mapSet
  by_cases hmem : (m.any (fun p => p.1 = k)) = true
  · rw [if_pos hmem]
    by_cases h : n = k
    · subst h
      simp [mapGet_replace_eq v m hmem]
    · simp [mapGet_replace_ne v h m, h]
  · rw [if_neg hmem]
    rw [mapGet_append_single]
    have hget : mapGet m n = none ∨ (mapGet m n).isSome = true := by
      cases mapGet m n <;> simp
    by_cases h : n = k
    · subst h
      have hnone : mapGet m n = none := by
        unfold mapGet
        rw [List.find?_eq_none.mpr]
        · rfl
        · intro x hx
          simp only [decide_eq_true_eq]
          intro hxk
          exact hmem (List.any_eq_true.mpr ⟨x, hx, by simp [hxk]⟩)
      simp [hnone]
    · cases hm : mapGet m n with
      | some w => simp [hm, h]
      | none => simp [hm, h]

end SeqThink.Proofs

namespace SeqThink.Proofs2

open SeqThink.Manager SeqThink.Server SeqThink.Sample SeqThink.Proofs

/-- Membership in `nonRevisionNumbers`, unfolded. -/
theorem mem_nonRevisionNumbers {thoughts : List ThoughtState} {n : Int} :
    n ∈ nonRevisionNumbers thoughts ↔
      ∃ t ∈ thoughts, t.isRevision = false ∧ t.thoughtNumber = n := by
  unfold nonRevisionNumbers
  simp only [List.mem_map, List.mem_filter, Bool.not_eq_true']
  tauto

/-- Membership in `hypothesisNumbers`, unfolded. -/
theorem mem_hypothesisNumbers {thoughts : List ThoughtState} {n : Int} :
    n ∈ hypothesisNumbers thoughts ↔
      ∃ t ∈ thoughts, t.thoughtType = some ThoughtType.hypothesis ∧
        t.thoughtNumber = n := by
  unfold hypothesisNumbers
  simp only [List.mem_map, List.mem_filter, decide_eq_true_eq]
  tauto

/-- The duplicate check succeeds exactly for revisions or fresh
non-revision numbers. -/
theorem duplicateCheck_ok_iff {s : ThinkingSession} {p : ThoughtParams} :
    duplicateCheck s p = .ok () ↔
      (boolTruthy p.isRevision = true ∨
       p.thoughtNumber ∉ nonRevisionNumbers s.thoughts) := by
  unfold duplicateCheck
  cases hrev : boolTruthy p.isRevision with
  | true => simp
  | false =>
    simp only [Bool.not_false, if_true]
    cases hf : s.thoughts.find?
        (fun t => t.thoughtNumber = p.thoughtNumber && !t.isRevision) with
    | some t =>
      have ht := List.find?_some hf
      have hmem := List.mem_of_find?_eq_some hf
      simp only [Bool.and_eq_true, decide_eq_true_eq, Bool.not_eq_true'] at ht
      constructor
      · intro h
        exact absurd h (by simp)
      · rintro (h | h)
        · exact absurd h (by simp)
        · exact absurd (mem_nonRevisionNumbers.mpr ⟨t, hmem, ht.2, ht.1⟩) h
    | none =>
      rw [List.find?_eq_none] at hf
      constructor
      · intro _
        refine Or.inr ?_
        intro hmem
        rcases mem_nonRevisionNumbers.mp hmem with ⟨t, ht, hrevt, hn⟩
        exact absurd (by simp [hn, hrevt] :
          (decide (t.thoughtNumber = p.thoughtNumber) && !t.isRevision) = true)
          (by simpa using hf t ht)
      · intro _
        rfl

/-- The revision check for a non-revision submission. -/
theorem revisionCheck_not_revision {s : ThinkingSession} {p : ThoughtParams}
    (h : boolTruthy p.isRevision = false) : revisionCheck s p = .ok () := by
  unfold revisionCheck
  simp [h]

/-- The revision check rejects a revision whose target is missing. -/
theorem revisionCheck_missing_target {s : ThinkingSession} {p : ThoughtParams}
    (hrev : boolTruthy p.isRevision = true) {r : Int}
    (hr : p.revisesThought = some r) (hr0 : r ≠ 0)
    (habs : ∀ t ∈ s.thoughts, t.thoughtNumber ≠ r) :
    revisionCheck s p = .error
      ("Cannot revise non-existent thought " ++ toString r) := by
  have htr : numTruthy p.revisesThought = true := by simp [numTruthy, hr, hr0]
  have hf : s.thoughts.find? (fun t => some t.thoughtNumber = p.revisesThought)
      = none := by
    rw [List.find?_eq_none]
    intro t ht
    simp only [hr, decide_eq_true_eq, Option.some.injEq]
    exact habs t ht
  unfold revisionCheck
  rw [hrev, htr, hf]
  simp [hr]

/-- The revision check accepts a revision whose target exists. -/
theorem revisionCheck_target_exists {s : ThinkingSession} {p : ThoughtParams}
    (hrev : boolTruthy p.isRevision = true) {r : Int}
    (hr : p.revisesThought = some r) (hr0 : r ≠ 0)
    {t : ThoughtState} (ht : t ∈ s.thoughts) (htn : t.thoughtNumber = r) :
    revisionCheck s p = .ok () := by
  have htr : numTruthy p.revisesThought = true := by simp [numTruthy, hr, hr0]
  unfold revisionCheck
  rw [hrev, htr]
  cases hf : s.thoughts.find?
      (fun u => some u.thoughtNumber = p.revisesThought) with
  | some u => simp [hf]
  | none =>
    rw [List.find?_eq_none] at hf
    exact absurd (by simp [hr, htn] :
        (decide (some t.thoughtNumber = p.revisesThought)) = true)
      (by simpa using hf t ht)

/-- The branch check passes when no branch fields are supplied. -/
theorem branchCheck_no_branch {s : ThinkingSession} {p : ThoughtParams}
    (h : numTruthy p.branchFromThought = false) : branchCheck s p = .ok () := by
  unfold branchCheck
  simp [h]

/-- `checkRelated` succeeds exactly when every referenced number is a key
of the hypotheses map. -/
theorem checkRelated_ok_iff {hyps : List (Int × ThoughtState)} :
    ∀ {l : List Int}, checkRelated hyps l = .ok () ↔
      ∀ r ∈ l, (mapGet hyps r).isSome = true := by
  intro l
  induction l with
  | nil => simp [checkRelated]
  | cons r rest ih =>
    unfold checkRelated
    cases hget : mapGet hyps r with
    | none => simp [hget]
    | some v => simp [hget, ih]

/-- The verification check for a non-verification submission. -/
theorem verificationCheck_not_verification {s : ThinkingSession}
    {p : ThoughtParams} (h : ¬ p.thoughtType = some ThoughtType.verification) :
    verificationCheck s p = .ok () := by
  unfold verificationCheck
  simp [h]

end SeqThink.Proofs2

namespace SeqThink.Proofs3

open SeqThink.Manager SeqThink.Server SeqThink.Sample SeqThink.Proofs SeqThink.Proofs2

/-- The state invariant maintained by the manager: the hypotheses map
tracks exactly the hypothesis-typed thoughts, keys index their own
thought numbers, and non-revision main-line numbers are unique. -/
def SessionInv (s : ThinkingSession) : Prop :=
  (∀ n, (mapGet s.hypotheses n).isSome = true ↔ n ∈ hypothesisNumbers s.thoughts) ∧
  (∀ n v, mapGet s.hypotheses n = some v → v.thoughtNumber = n) ∧
  List.Nodup (nonRevisionNumbers s.thoughts)

theorem nonRevisionNumbers_append (ts : List ThoughtState) (t : ThoughtState) :
    nonRevisionNumbers (ts ++ [t]) =
      nonRevisionNumbers ts ++
        (if t.isRevision = false then [t.thoughtNumber] else []) := by
  unfold nonRevisionNumbers
  rw [List.filter_append, List.map_append]
  congr 1
  cases h : t.isRevision <;> simp [List.filter, h]

theorem hypothesisNumbers_append (ts : List ThoughtState) (t : ThoughtState) :
    hypothesisNumbers (ts ++ [t]) =
      hypothesisNumbers ts ++
        (if t.thoughtType = some ThoughtType.hypothesis then [t.thoughtNumber]
         else []) := by
  unfold hypothesisNumbers
  rw [List.filter_append, List.map_append]
  congr 1
  by_cases h : t.thoughtType = some ThoughtType.hypothesis <;>
    simp [List.filter, h]

/-- One accepted `addThought` preserves the invariant. -/
theorem sessionInv_step {s : ThinkingSession} {p : ThoughtParams}
    (hinv : SessionInv s)
    (hval : validateThoughtSequence s p = .ok ()) :
    SessionInv (sessionAfter s p) := by
  obtain ⟨hkeys, hkv, hnodup⟩ := hinv
  obtain ⟨hdup, hrev, hbr, hver⟩ := validateThoughtSequence_ok_iff.mp hval
  have hmkty : (mkThoughtState p).thoughtType = p.thoughtType := rfl
  have hmknum : (mkThoughtState p).thoughtNumber = p.thoughtNumber := rfl
  unfold SessionInv sessionAfter
  refine ⟨?_, ?_, ?_⟩
  · intro n
    by_cases hty : p.thoughtType = some ThoughtType.hypothesis
    · rw [if_pos hty, mapGet_mapSet, hypothesisNumbers_append,
        if_pos (hmkty.trans hty)]
      by_cases hn : n = p.thoughtNumber
      · subst hn
        simp [hmknum]
      · rw [if_neg hn, List.mem_append, hmknum, List.mem_singleton]
        constructor
        · intro h
          exact Or.inl ((hkeys n).mp h)
        · rintro (h | h)
          · exact (hkeys n).mpr h
          · exact absurd h hn
    · rw [if_neg hty, hypothesisNumbers_append,
        if_neg (fun hc => hty (hmkty.symm.trans hc)), List.append_nil]
      exact hkeys n
  · intro n v
    by_cases hty : p.thoughtType = some ThoughtType.hypothesis
    · rw [if_pos hty, mapGet_mapSet]
      by_cases hn : n = p.thoughtNumber
      · subst hn
        rw [if_pos rfl]
        intro h
        have hv := Option.some.inj h
        subst hv
        exact hmknum
      · rw [if_neg hn]
        exact hkv n v
    · rw [if_neg hty]
      exact hkv n v
  · rw [nonRevisionNumbers_append]
    cases hrevb : boolTruthy p.isRevision with
    | true =>
      have hmk : (mkThoughtState p).isRevision = true := by
        simp [mkThoughtState, hrevb]
      rw [if_neg (by simp [hmk]), List.append_nil]
      exact hnodup
    | false =>
      have hmk : (mkThoughtState p).isRevision = false := by
        simp [mkThoughtState, hrevb]
      rcases duplicateCheck_ok_iff.mp hdup with h | h
      · rw [hrevb] at h
        cases h
      · rw [if_pos hmk, hmknum, List.nodup_append]
        exact ⟨hnodup, List.nodup_singleton _, by
          intro a ha hb
          simp only [List.mem_singleton] at hb
          subst hb
          exact h ha⟩

/-- Every reachable session satisfies the invariant. -/
theorem reachable_sessionInv {s : ThinkingSession} (h : Reachable s) :
    SessionInv s := by
  induction h with
  | empty =>
    refine ⟨?_, ?_, ?_⟩ <;> simp [emptySession, mapGet, hypothesisNumbers,
      nonRevisionNumbers]
  | @step s p ts s' hr hadd ih =>
    obtain ⟨hval, hout⟩ := addThought_ok_iff.mp hadd
    have hs' : s' = sessionAfter s p := congrArg Prod.snd hout
    rw [hs']
    exact sessionInv_step ih hval

end SeqThink.Proofs3

namespace SeqThink.Proofs4

open SeqThink.Manager SeqThink.Server SeqThink.Sample SeqThink.Proofs

/-- A successful base validation returns exactly the sanitized record. -/
theorem validateThoughtData_ok {input : RawInput} {b : ThoughtData}
    (h : validateThoughtData input = .ok b) : b = validatedOf input := by
  unfold validateThoughtData at h
  obtain ⟨u1, h1, h⟩ := except_bind_ok h
  obtain ⟨u2, h2, h⟩ := except_bind_ok h
  obtain ⟨u3, h3, h⟩ := except_bind_ok h
  obtain ⟨u4, h4, h⟩ := except_bind_ok h
  obtain ⟨u5, h5, h⟩ := except_bind_ok h
  obtain ⟨u6, h6, h⟩ := except_bind_ok h
  exact (Except.ok.inj h).symm

/-- A successful base validation implies the four required fields were
present. -/
theorem validateThoughtData_ok_fields {input : RawInput} {b : ThoughtData}
    (h : validateThoughtData input = .ok b) :
    input.thought.isSome = true ∧ input.thoughtNumber.isSome = true ∧
    input.totalThoughts.isSome = true ∧ input.nextThoughtNeeded.isSome = true := by
  unfold validateThoughtData at h
  obtain ⟨u1, h1, h⟩ := except_bind_ok h
  obtain ⟨u2, h2, h⟩ := except_bind_ok h
  obtain ⟨u3, h3, h⟩ := except_bind_ok h
  obtain ⟨u4, h4, h⟩ := except_bind_ok h
  refine ⟨?_, ?_, ?_, ?_⟩
  · unfold thoughtCheck at h1
    cases ht : input.thought with
    | none => rw [ht] at h1; cases h1
    | some s => rfl
  · unfold thoughtNumberCheck at h2
    cases ht : input.thoughtNumber with
    | none => rw [ht] at h2; cases h2
    | some n => rfl
  · unfold totalThoughtsCheck at h3
    cases ht : input.totalThoughts with
    | none => rw [ht] at h3; cases h3
    | some n => rfl
  · unfold nextThoughtNeededCheck at h4
    cases ht : input.nextThoughtNeeded with
    | none => rw [ht] at h4; cases h4
    | some b => rfl

/-- A successful full validation returns exactly the assembled record and
certifies the base validation. -/
theorem validateSequenceThoughtData_ok {input : RawInput}
    {v : SequenceThoughtData}
    (h : validateSequenceThoughtData input = .ok v) :
    v = assembledOf input ∧
    validateThoughtData input = .ok (validatedOf input) := by
  unfold validateSequenceThoughtData at h
  obtain ⟨u1, h1, h⟩ := except_bind_ok h
  obtain ⟨u2, h2, h⟩ := except_bind_ok h
  have hb := validateThoughtData_ok h2
  subst hb
  exact ⟨(Except.ok.inj h).symm, h2⟩

/-- A submission missing one of the required base fields never
validates. -/
theorem validateSequenceThoughtData_error_of_missing {input : RawInput}
    (hmiss : input.thought = none ∨ input.thoughtNumber = none ∨
      input.totalThoughts = none ∨ input.nextThoughtNeeded = none) :
    ∃ e, validateSequenceThoughtData input = .error e := by
  rcases except_ok_or_error (validateSequenceThoughtData input) with ⟨v, hv⟩ | he
  · obtain ⟨_, hbase⟩ := validateSequenceThoughtData_ok hv
    obtain ⟨f1, f2, f3, f4⟩ := validateThoughtData_ok_fields hbase
    rcases hmiss with h | h | h | h
    · rw [h] at f1; cases f1
    · rw [h] at f2; cases f2
    · rw [h] at f3; cases f3
    · rw [h] at f4; cases f4
  · exact he

end SeqThink.Proofs4

namespace SeqThink.Proofs5

open SeqThink.Manager SeqThink.Server SeqThink.Sample SeqThink.Proofs SeqThink.Proofs4

/-- A validation failure short-circuits `processThought`: the error is
returned and the state is the input state. -/
theorem processThought_validation_error {cfg : Limits} {ids : Nat → String}
    {now : Nat} {input : RawInput} {s : ServerState} {e : String}
    (h : validateSequenceThoughtData input = .error e) :
    processThought cfg ids now input s = (.error e, s) := by
  unfold processThought
  rw [h]

/-- Field projections through `autoAdjust` (only `totalThoughts`
changes). -/
theorem autoAdjust_branchFromThought (t : ThoughtData) :
    (autoAdjust t).branchFromThought = t.branchFromThought := by
  unfold autoAdjust; split <;> rfl

theorem autoAdjust_branchId (t : ThoughtData) :
    (autoAdjust t).branchId = t.branchId := by
  unfold autoAdjust; split <;> rfl

/-- An accepted plain submission (no directive, no branch fields) appends
the sanitized thought to the main line and prunes it; the active sequence
id is unchanged. -/
theorem processThought_plain_step {cfg : Limits} {ids : Nat → String}
    {now : Nat} {input : RawInput} {s : ServerState} {r : Response}
    {s' : ServerState}
    (hval : isOkE (validateSequenceThoughtData input) = true)
    (hdir : noDirectives input)
    (hbr : numTruthy input.branchFromThought = false)
    (hrun : processThought cfg ids now input s = (.ok r, s')) :
    s'.thoughtHistory =
      cleanupOldThoughts cfg.maxThoughtHistory
        (s.thoughtHistory ++ [pushedThought input]) ∧
    s'.currentSequenceId = s.currentSequenceId ∧
    s'.branches = cleanupOldBranches cfg s.branches := by
  obtain ⟨hsv, hld, hsr, hex, him⟩ := hdir
  cases hvres : validateSequenceThoughtData input with
  | error e => rw [hvres] at hval; cases hval
  | ok v =>
    obtain ⟨hv, _⟩ := validateSequenceThoughtData_ok hvres
    subst hv
    unfold processThought at hrun
    rw [hvres] at hrun
    have e1 : (assembledOf input).searchSequence = none := by
      simp [assembledOf, hsr]
    have e2 : (assembledOf input).exportSequence = none := by
      simp [assembledOf, hex]
    have e3 : (assembledOf input).importSequence = none := by
      simp [assembledOf, him]
    have e4 : (assembledOf input).loadSequence = none := by
      simp [assembledOf, hld]
    have e5 : (assembledOf input).saveSequence = none := by
      simp [assembledOf, hsv]
    simp only [e1, e2, e3, e4, e5] at hrun
    have ebb : (autoAdjust (assembledOf input).base).branchFromThought =
        input.branchFromThought := by
      rw [autoAdjust_branchFromThought]; rfl
    simp only [ebb, hbr, Bool.false_and] at hrun
    cases hdb : (if strTruthy s.currentSequenceId then
        match saveThought s.db (ids 0) now (autoAdjust (assembledOf input).base)
            (s.currentSequenceId.getD "") with
        | .error e => Except.error e
        | .ok db1 => .ok (updateSequenceModified db1
            (s.currentSequenceId.getD "") now
            (s.thoughtHistory ++ [autoAdjust (assembledOf input).base]).length)
      else Except.ok s.db) with
    | error e =>
        rw [hdb] at hrun
        cases hrun
    | ok db2 =>
        rw [hdb] at hrun
        have hst := congrArg Prod.snd hrun
        simp only at hst
        rw [← hst]
        exact ⟨rfl, rfl, rfl⟩

end SeqThink.Proofs5

namespace SeqThink.Proofs6

open SeqThink.Manager SeqThink.Server SeqThink.Sample SeqThink.Proofs
open SeqThink.Proofs4 SeqThink.Proofs5

/-- For a positive limit, eviction keeps exactly the last
`maxThoughtHistory` entries. -/
theorem cleanupOldThoughts_eq_takeLast {M : Nat} (hM : 0 < M)
    (h : List ThoughtData) : cleanupOldThoughts M h = takeLast M h := by
  unfold cleanupOldThoughts takeLast jsSliceLast
  by_cases hlen : h.length > M
  · rw [if_pos hlen, if_neg (Nat.pos_iff_ne_zero.mp hM)]
  · rw [if_neg hlen]
    have : h.length - M = 0 := by omega
    rw [this, List.drop_zero]

/-- Re-pruning after an append: only the last `M` entries matter. -/
theorem takeLast_append_takeLast {M : Nat} (x y : List ThoughtData) :
    takeLast M (takeLast M x ++ y) = takeLast M (x ++ y) := by
  unfold takeLast
  have ha : x.length - M ≤ x.length := Nat.sub_le _ _
  rw [← List.drop_append_of_le_length ha, List.drop_drop, List.length_drop,
    List.length_append]
  congr 1
  omega

end SeqThink.Proofs6

namespace SeqThink.Proofs7

open SeqThink.Manager SeqThink.Server SeqThink.Sample SeqThink.Proofs
open SeqThink.Proofs4 SeqThink.Proofs5 SeqThink.Proofs6

/-- History after a non-empty accepted run of plain submissions: the last
`maxThoughtHistory` entries of the old history extended by all pushed
thoughts. -/
theorem foldProcess_history {cfg : Limits} {ids : Nat → String} {now : Nat}
    (hM : 0 < cfg.maxThoughtHistory) :
    ∀ (inputs : List RawInput) (s : ServerState), inputs ≠ [] →
      (∀ i ∈ inputs, plainSubmission i) →
      stepsAccepted cfg ids now inputs s = true →
      (foldProcess cfg ids now inputs s).thoughtHistory =
        takeLast cfg.maxThoughtHistory
          (s.thoughtHistory ++ inputs.map pushedThought) := by
  intro inputs
  induction inputs with
  | nil => intro s hne _ _; cases hne rfl
  | cons i rest ih =>
    intro s _ hvalid hacc
    unfold stepsAccepted at hacc
    cases hrun : processThought cfg ids now i s with
    | mk res st' =>
      rw [hrun] at hacc
      cases res with
      | error e => cases hacc
      | ok r =>
        obtain ⟨hv, hd, hb⟩ := hvalid i (List.mem_cons_self i rest)
        obtain ⟨hh, _, _⟩ := processThought_plain_step hv hd hb hrun
        have hacc' : stepsAccepted cfg ids now rest st' = true := by
          simpa using hacc
        have hfold : foldProcess cfg ids now (i :: rest) s =
            foldProcess cfg ids now rest st' := by
          unfold foldProcess
          rw [List.foldl_cons, hrun]
        rw [hfold]
        by_cases hrest : rest = []
        · subst hrest
          unfold foldProcess
          rw [List.foldl_nil, hh, cleanupOldThoughts_eq_takeLast hM]
          rfl
        · rw [ih st' hrest (fun x hx =>
            hvalid x (List.mem_cons_of_mem i hx)) hacc']
          rw [hh, cleanupOldThoughts_eq_takeLast hM, takeLast_append_takeLast]
          rw [List.map_cons, List.append_assoc]
          rfl

end SeqThink.Proofs7

namespace SeqThink.Proofs8

open SeqThink.Manager SeqThink.Server SeqThink.Sample SeqThink.Proofs
open SeqThink.Proofs2 SeqThink.Proofs3

/-- A failing first component short-circuits an `Except` bind. -/
theorem except_bind_error {ε α β : Type} {a : Except ε α} {f : α → Except ε β}
    {e : ε} (h : a = .error e) : (a >>= f) = .error e := by
  rw [h]
  rfl

/-- A successful first component reduces an `Except` bind. -/
theorem except_ok_bind {ε α β : Type} {x : α} {f : α → Except ε β} :
    ((Except.ok x : Except ε α) >>= f) = f x := rfl

/-- A duplicate-check failure is a `validateThoughtSequence` failure. -/
theorem validateThoughtSequence_error_of_dup {s : ThinkingSession}
    {p : ThoughtParams} {e : String} (h : duplicateCheck s p = .error e) :
    validateThoughtSequence s p = .error e := by
  unfold validateThoughtSequence
  exact except_bind_error h

/-- A revision-check failure is a `validateThoughtSequence` failure when
the duplicate check passed. -/
theorem validateThoughtSequence_error_of_rev {s : ThinkingSession}
    {p : ThoughtParams} {e : String} (hdup : duplicateCheck s p = .ok ())
    (h : revisionCheck s p = .error e) :
    validateThoughtSequence s p = .error e := by
  unfold validateThoughtSequence
  rw [hdup, except_ok_bind]
  exact except_bind_error h

/-- Appending a verification that references a hypothesis makes that
verification the latest one, so it decides the hypothesis' derived
status. -/
theorem hypothesisStatus_append {thoughts : List ThoughtState}
    {h V : ThoughtState}
    (hty : V.thoughtType = some ThoughtType.verification)
    {l : List Int} (hrel : V.relatedTo = some l) (hmem : h.thoughtNumber ∈ l)
    {res : VerificationResult} (hres : V.verificationResult = some res) :
    hypothesisStatus (thoughts ++ [V]) h = res := by
  unfold hypothesisStatus
  rw [List.filter_append]
  have hpred : (decide (V.thoughtType = some ThoughtType.verification) &&
      (match V.relatedTo with
       | some l => decide (h.thoughtNumber ∈ l)
       | none => false)) = true := by
    rw [hty, hrel]
    simp [hmem]
  have hfil : List.filter (fun t =>
      decide (t.thoughtType = some ThoughtType.verification) &&
      (match t.relatedTo with
       | some l => decide (h.thoughtNumber ∈ l)
       | none => false)) [V] = [V] := by
    simp only [List.filter]
    rw [hpred]
  rw [hfil]
  dsimp only
  rw [List.getLast?_concat]
  cases res <;> simp [hres]

end SeqThink.Proofs8

namespace SeqThink.Claims

open SeqThink.Manager SeqThink.Server SeqThink.Sample SeqThink.Proofs
open SeqThink.Proofs2 SeqThink.Proofs3 SeqThink.Proofs4 SeqThink.Proofs5
open SeqThink.Proofs6 SeqThink.Proofs7 SeqThink.Proofs8

/-- C2.  In every session reachable through accepted submissions, no two
non-revision thoughts share a thought number, and a submission with
`isRevision` unset whose `thoughtNumber` equals an existing non-revision
thought's number is rejected with a validation error. -/
theorem claim_C2_main_line_uniqueness (s : ThinkingSession)
    (hs : Reachable s) :
    List.Nodup (nonRevisionNumbers s.thoughts) ∧
    ∀ p : ThoughtParams, p.isRevision = none →
      p.thoughtNumber ∈ nonRevisionNumbers s.thoughts →
      ∃ e, addThought s p = .error e := by
  refine ⟨(reachable_sessionInv hs).2.2, ?_⟩
  intro p hrev hmem
  have hrevb : boolTruthy p.isRevision = false := by rw [hrev]; rfl
  cases hdup : duplicateCheck s p with
  | error e => exact ⟨e, addThought_error (validateThoughtSequence_error_of_dup hdup)⟩
  | ok u =>
    cases u
    rcases duplicateCheck_ok_iff.mp hdup with h | h
    · rw [hrevb] at h
      cases h
    · exact absurd hmem h

/-- Witness for C2: a concrete reachable one-thought session is
duplicate-free and rejects a duplicate non-revision submission. -/
theorem claim_C2_witness :
    List.Nodup (nonRevisionNumbers sessionOne.thoughts) ∧
    (∃ e, addThought sessionOne (plainParams "duplicate" 1 1) = .error e) := by
  have hreach : Reachable sessionOne :=
    Reachable.step (p := plainParams "one" 1 1) Reachable.empty rfl
  exact ⟨(claim_C2_main_line_uniqueness sessionOne hreach).1,
    (claim_C2_main_line_uniqueness sessionOne hreach).2
      (plainParams "duplicate" 1 1) rfl (by decide)⟩

end SeqThink.Claims

namespace SeqThink.Claims

open SeqThink.Manager SeqThink.Server SeqThink.Sample SeqThink.Proofs
open SeqThink.Proofs2 SeqThink.Proofs3 SeqThink.Proofs4 SeqThink.Proofs5
open SeqThink.Proofs6 SeqThink.Proofs7 SeqThink.Proofs8

/-- C4.  A verification whose `relatedTo` names a number that is not a
recorded hypothesis is rejected; if every entry names a recorded
hypothesis (and the submission passes the unrelated checks), it is
accepted and each referenced hypothesis' derived status becomes the
verification's result. -/
theorem claim_C4_verification_linkage (s : ThinkingSession)
    (hs : Reachable s) (p : ThoughtParams)
    (hty : p.thoughtType = some ThoughtType.verification)
    (l : List Int) (hrel : p.relatedTo = some l) (hne : l ≠ []) :
    ((∃ r ∈ l, r ∉ hypothesisNumbers s.thoughts) →
      ∃ e, addThought s p = .error e) ∧
    ((∀ r ∈ l, r ∈ hypothesisNumbers s.thoughts) →
      p.isRevision = none → p.branchFromThought = none →
      p.thoughtNumber ∉ nonRevisionNumbers s.thoughts →
      ∀ res, p.verificationResult = some res →
      ∃ ts s', addThought s p = .ok (ts, s') ∧
        ∀ r ∈ l, ∀ hyp, mapGet s'.hypotheses r = some hyp →
          hypothesisStatus s'.thoughts hyp = res) := by
  have hverc : verificationCheck s p = checkRelated s.hypotheses l := by
    unfold verificationCheck
    rw [if_pos hty, hrel]
  constructor
  · rintro ⟨r, hrl, hnot⟩
    rcases except_ok_or_error (addThought s p) with ⟨out, hout⟩ | he
    · obtain ⟨hval, _⟩ := addThought_ok_iff.mp hout
      obtain ⟨_, _, _, hver⟩ := validateThoughtSequence_ok_iff.mp hval
      rw [hverc] at hver
      have hsome := checkRelated_ok_iff.mp hver r hrl
      have hmem := ((reachable_sessionInv hs).1 r).mp hsome
      exact absurd hmem hnot
    · exact he
  · intro hall hrev hbf hfresh res hres
    have hrevb : boolTruthy p.isRevision = false := by rw [hrev]; rfl
    have hbfb : numTruthy p.branchFromThought = false := by rw [hbf]; rfl
    have hval : validateThoughtSequence s p = .ok () :=
      validateThoughtSequence_ok_iff.mpr
        ⟨duplicateCheck_ok_iff.mpr (Or.inr hfresh),
         revisionCheck_not_revision hrevb,
         branchCheck_no_branch hbfb,
         by
           rw [hverc]
           exact checkRelated_ok_iff.mpr (fun r hr =>
             ((reachable_sessionInv hs).1 r).mpr (hall r hr))⟩
    have haccept : addThought s p =
        .ok (mkThoughtState p, sessionAfter s p) :=
      addThought_ok_iff.mpr ⟨hval, rfl⟩
    refine ⟨mkThoughtState p, sessionAfter s p, haccept, ?_⟩
    intro r hr hyp hget
    have hhyps : (sessionAfter s p).hypotheses = s.hypotheses := by
      unfold sessionAfter
      simp only [hty]
      rfl
    rw [hhyps] at hget
    have hnum : hyp.thoughtNumber = r := (reachable_sessionInv hs).2.1 r hyp hget
    have hth : (sessionAfter s p).thoughts = s.thoughts ++ [mkThoughtState p] := rfl
    rw [hth]
    exact hypothesisStatus_append
      (show (mkThoughtState p).thoughtType = some ThoughtType.verification from hty)
      (show (mkThoughtState p).relatedTo = some l from hrel)
      (by rw [hnum]; exact hr)
      (show (mkThoughtState p).verificationResult = some res from hres)

/-- Witness for C4: the concrete session holding hypothesis 1 accepts a
confirmed verification of it, and the hypothesis' derived status becomes
`confirmed`. -/
theorem claim_C4_witness :
    (∀ r ∈ [(1 : Int)], r ∈ hypothesisNumbers sessionHyp.thoughts) ∧
    (∃ ts s', addThought sessionHyp verifyParams = .ok (ts, s') ∧
      ∀ r ∈ [(1 : Int)], ∀ hyp, mapGet s'.hypotheses r = some hyp →
        hypothesisStatus s'.thoughts hyp = VerificationResult.confirmed) := by
  have hreach : Reachable sessionHyp :=
    Reachable.step (p := hypParams) Reachable.empty rfl
  refine ⟨by decide, ?_⟩
  exact (claim_C4_verification_linkage sessionHyp hreach verifyParams rfl
    [1] rfl (by decide)).2 (by decide) rfl rfl (by decide)
    VerificationResult.confirmed rfl

end SeqThink.Claims

namespace SeqThink.ClaimsC1

open SeqThink.Manager SeqThink.Server SeqThink.Sample SeqThink.Proofs
open SeqThink.Proofs2 SeqThink.Proofs3 SeqThink.Proofs4 SeqThink.Proofs5
open SeqThink.Proofs6 SeqThink.Proofs7 SeqThink.Proofs8

/-- C1, counterexample.  The standalone engine accepts
`isRevision=true, revisesThought=5` on an empty history (no error, and
the history grows), and in the session engine an accepted revision of the
existing thought 5 grows the main line from 1 to 2 entries — against the
claim's "rejects ... and ... does not increase the main-line count". -/
theorem claim_C1_counterexample :
    isOkE (processThought cfgDefault anyIds 0 reviseFiveRaw initialState).1
      = true ∧
    (processThought cfgDefault anyIds 0 reviseFiveRaw
      initialState).2.thoughtHistory.length = 1 ∧
    sessionFive.thoughts.length = 1 ∧
    (addThought sessionFive reviseFiveParams).toOption.map
      (fun out => out.2.thoughts.length) = some 2 := by
  decide

/-- C1, amended.  (a) The session engine rejects a revision whose
`revisesThought` names no existing thought; (b) once the target exists
the same submission is accepted, appended to the line (length grows by
one) with the non-revision numbers unchanged; (c) the standalone
`processThought` engine performs no revision-target check: any accepted
valid plain submission — revision or not — is simply appended and
pruned. -/
theorem claim_C1_revision_handling_amended :
    (∀ (s : ThinkingSession) (p : ThoughtParams) (r : Int),
      boolTruthy p.isRevision = true → p.revisesThought = some r → r ≠ 0 →
      (∀ t ∈ s.thoughts, t.thoughtNumber ≠ r) →
      ∃ e, addThought s p = .error e) ∧
    (∀ (s : ThinkingSession) (p : ThoughtParams) (r : Int),
      boolTruthy p.isRevision = true → p.revisesThought = some r → r ≠ 0 →
      (∃ t ∈ s.thoughts, t.thoughtNumber = r) →
      p.branchFromThought = none → p.thoughtType = none →
      ∃ ts s', addThought s p = .ok (ts, s') ∧
        s'.thoughts = s.thoughts ++ [ts] ∧ ts.isRevision = true ∧
        s'.thoughts.length = s.thoughts.length + 1 ∧
        nonRevisionNumbers s'.thoughts = nonRevisionNumbers s.thoughts) ∧
    (∀ (cfg : Limits) (ids : Nat → String) (now : Nat) (input : RawInput)
       (s : ServerState) (resp : Response) (s' : ServerState),
      isOkE (validateSequenceThoughtData input) = true → noDirectives input →
      numTruthy input.branchFromThought = false →
      boolTruthy input.isRevision = true →
      processThought cfg ids now input s = (.ok resp, s') →
      s'.thoughtHistory = cleanupOldThoughts cfg.maxThoughtHistory
        (s.thoughtHistory ++ [pushedThought input])) := by
  refine ⟨?_, ?_, ?_⟩
  · intro s p r hrev hr hr0 habs
    have hdup : duplicateCheck s p = .ok () := by
      unfold duplicateCheck
      simp [hrev]
    exact ⟨_, addThought_error (validateThoughtSequence_error_of_rev hdup
      (revisionCheck_missing_target hrev hr hr0 habs))⟩
  · intro s p r hrev hr hr0 hex hbf hty
    obtain ⟨t, ht, htn⟩ := hex
    have hval : validateThoughtSequence s p = .ok () :=
      validateThoughtSequence_ok_iff.mpr
        ⟨by unfold duplicateCheck; simp [hrev],
         revisionCheck_target_exists hrev hr hr0 ht htn,
         branchCheck_no_branch (by rw [hbf]; rfl),
         verificationCheck_not_verification (by rw [hty]; simp)⟩
    refine ⟨mkThoughtState p, sessionAfter s p,
      addThought_ok_iff.mpr ⟨hval, rfl⟩, rfl, ?_, ?_, ?_⟩
    · show boolTruthy p.isRevision = true
      exact hrev
    · show (s.thoughts ++ [mkThoughtState p]).length = s.thoughts.length + 1
      simp
    · show nonRevisionNumbers (s.thoughts ++ [mkThoughtState p]) =
        nonRevisionNumbers s.thoughts
      rw [nonRevisionNumbers_append,
        if_neg (by show ¬ boolTruthy p.isRevision = false; rw [hrev]; simp),
        List.append_nil]
  · intro cfg ids now input s resp s' hval hdir hbr _ hrun
    exact (processThought_plain_step hval hdir hbr hrun).1

/-- Witness for the amended C1: concrete instances of all three parts. -/
theorem claim_C1_witness :
    (∃ e, addThought emptySession reviseFiveParams = .error e) ∧
    (∃ ts s', addThought sessionFive reviseFiveParams = .ok (ts, s') ∧
      s'.thoughts = sessionFive.thoughts ++ [ts] ∧ ts.isRevision = true ∧
      s'.thoughts.length = sessionFive.thoughts.length + 1 ∧
      nonRevisionNumbers s'.thoughts = nonRevisionNumbers sessionFive.thoughts) ∧
    (processThought cfgDefault anyIds 0 reviseFiveRaw
        initialState).2.thoughtHistory =
      cleanupOldThoughts cfgDefault.maxThoughtHistory
        (initialState.thoughtHistory ++ [pushedThought reviseFiveRaw]) := by
  refine ⟨?_, ?_, ?_⟩
  · exact claim_C1_revision_handling_amended.1 emptySession reviseFiveParams 5
      rfl rfl (by decide) (by decide)
  · exact claim_C1_revision_handling_amended.2.1 sessionFive reviseFiveParams 5
      rfl rfl (by decide) (by decide) rfl rfl
  · have hok : isOkE (processThought cfgDefault anyIds 0 reviseFiveRaw
        initialState).1 = true := by decide
    cases hpr : processThought cfgDefault anyIds 0 reviseFiveRaw initialState with
    | mk r1 s1 =>
      cases r1 with
      | error e =>
          rw [hpr] at hok
          cases hok
      | ok resp =>
          show (Except.ok resp, s1).2.thoughtHistory = _
          exact claim_C1_revision_handling_amended.2.2 cfgDefault anyIds 0
            reviseFiveRaw initialState resp s1 (by decide) (by decide)
            (by decide) (by decide) hpr

end SeqThink.ClaimsC1

namespace SeqThink.Proofs9

open SeqThink.Manager SeqThink.Server SeqThink.Sample SeqThink.Proofs
open SeqThink.Proofs4 SeqThink.Proofs5

/-- Pushing onto a branch that does not exist yet appends a fresh
singleton branch. -/
theorem branchPush_fresh {bs : Branches} {k : String} {t : ThoughtData}
    (h : branchGet bs k = none) : branchPush bs k t = bs ++ [(k, [t])] := by
  unfold branchGet at h
  unfold branchPush
  cases hf : List.find? (fun p => p.1 = k) bs with
  | some v => rw [hf] at h; cases h
  | none => simp

/-- Reading the freshly appended branch. -/
theorem branchGet_append_fresh {bs : Branches} {k : String}
    {v : List ThoughtData} (h : branchGet bs k = none) :
    branchGet (bs ++ [(k, v)]) k = some v := by
  unfold branchGet at h ⊢
  rw [List.find?_append]
  cases hf : List.find? (fun p => p.1 = k) bs with
  | some w => rw [hf] at h; cases h
  | none => simp [List.find?]

/-- Within the branch limit the eviction phase is skipped: only the
per-branch trim applies. -/
theorem cleanupOldBranches_no_evict {cfg : Limits} {bs : Branches}
    (h : ¬ bs.length > cfg.maxBranches) :
    cleanupOldBranches cfg bs = bs.map (fun p =>
      (p.1,
       if p.2.length > cfg.maxThoughtsPerBranch then
         jsSliceLast p.2 cfg.maxThoughtsPerBranch
       else p.2)) := by
  unfold cleanupOldBranches
  rw [if_neg h]

/-- Reading a key through the per-branch trim map. -/
theorem branchGet_map_trim {bs : Branches} {k : String}
    (g : List ThoughtData → List ThoughtData) :
    branchGet (bs.map (fun p => (p.1, g p.2))) k =
      (branchGet bs k).map g := by
  unfold branchGet
  induction bs with
  | nil => rfl
  | cons p bs ih =>
    by_cases hp : p.1 = k
    · simp [List.find?, hp]
    · simp only [List.map_cons, List.find?, decide_eq_false hp]
      simpa using ih

/-- An accepted branch submission: shape of the `processThought` result.
The thought is appended to both the main line and its branch before the
two lines are pruned. -/
theorem processThought_branch_step {cfg : Limits} {ids : Nat → String}
    {now : Nat} {input : RawInput} {s : ServerState} {r : Response}
    {s' : ServerState}
    (hval : isOkE (validateSequenceThoughtData input) = true)
    (hdir : noDirectives input)
    (hbt : numTruthy input.branchFromThought = true)
    (hbid : strTruthy input.branchId = true)
    (hrun : processThought cfg ids now input s = (.ok r, s')) :
    r = .thoughtAccepted (mkThoughtResponse (pushedThought input) s
        (cleanupOldThoughts cfg.maxThoughtHistory
          (s.thoughtHistory ++ [pushedThought input]))
        (cleanupOldBranches cfg
          (branchPush s.branches (input.branchId.getD "")
            (pushedThought input)))) ∧
    s'.thoughtHistory = cleanupOldThoughts cfg.maxThoughtHistory
      (s.thoughtHistory ++ [pushedThought input]) ∧
    s'.branches = cleanupOldBranches cfg
      (branchPush s.branches (input.branchId.getD "") (pushedThought input)) ∧
    s'.currentSequenceId = s.currentSequenceId := by
  obtain ⟨hsv, hld, hsr, hex, him⟩ := hdir
  cases hvres : validateSequenceThoughtData input with
  | error e => rw [hvres] at hval; cases hval
  | ok v =>
    obtain ⟨hv, _⟩ := validateSequenceThoughtData_ok hvres
    subst hv
    unfold processThought at hrun
    rw [hvres] at hrun
    have e1 : (assembledOf input).searchSequence = none := by
      simp [assembledOf, hsr]
    have e2 : (assembledOf input).exportSequence = none := by
      simp [assembledOf, hex]
    have e3 : (assembledOf input).importSequence = none := by
      simp [assembledOf, him]
    have e4 : (assembledOf input).loadSequence = none := by
      simp [assembledOf, hld]
    have e5 : (assembledOf input).saveSequence = none := by
      simp [assembledOf, hsv]
    have ebb : (autoAdjust (assembledOf input).base).branchFromThought =
        input.branchFromThought := by
      rw [autoAdjust_branchFromThought]; rfl
    have ebi : (autoAdjust (assembledOf input).base).branchId =
        input.branchId := by
      rw [autoAdjust_branchId]; rfl
    simp only [e1, e2, e3, e4, e5, ebb, ebi, hbt, hbid, Bool.true_and,
      if_true] at hrun
    cases hlim : validateBranchLimits cfg s.branches (input.branchId.getD "") with
    | error e =>
        rw [hlim] at hrun
        cases hrun
    | ok u =>
        cases u
        rw [hlim] at hrun
        cases hdb : (if strTruthy s.currentSequenceId then
            match saveThought s.db (ids 0) now
                (autoAdjust (assembledOf input).base)
                (s.currentSequenceId.getD "") with
            | .error e => Except.error e
            | .ok db1 => .ok (updateSequenceModified db1
                (s.currentSequenceId.getD "") now
                (s.thoughtHistory ++
                  [autoAdjust (assembledOf input).base]).length)
          else Except.ok s.db) with
        | error e =>
            rw [hdb] at hrun
            cases hrun
        | ok db2 =>
            rw [hdb] at hrun
            have hfst : (Except.ok (Response.thoughtAccepted
                (mkThoughtResponse (pushedThought input) s
                  (cleanupOldThoughts cfg.maxThoughtHistory
                    (s.thoughtHistory ++ [pushedThought input]))
                  (cleanupOldBranches cfg
                    (branchPush s.branches (input.branchId.getD "")
                      (pushedThought input))))) : Except String Response)
                = Except.ok r := congrArg Prod.fst hrun
            have hsnd : ServerState.mk
                (cleanupOldThoughts cfg.maxThoughtHistory
                  (s.thoughtHistory ++ [pushedThought input]))
                (cleanupOldBranches cfg
                  (branchPush s.branches (input.branchId.getD "")
                    (pushedThought input)))
                s.currentSequenceId db2 = s' := congrArg Prod.snd hrun
            refine ⟨(Except.ok.inj hfst).symm, ?_, ?_, ?_⟩ <;> rw [← hsnd]

end SeqThink.Proofs9

namespace SeqThink.Proofs10

open SeqThink.Manager SeqThink.Server SeqThink.Sample SeqThink.Proofs
open SeqThink.Proofs4 SeqThink.Proofs5 SeqThink.Proofs6 SeqThink.Proofs9

/-- Appending to every entry of the pushed key, seen through a read. -/
theorem branchGet_push_map (bs : Branches) (k : String) (t : ThoughtData) :
    branchGet (bs.map (fun p => if p.1 = k then (p.1, p.2 ++ [t]) else p)) k
      = (branchGet bs k).map (fun l => l ++ [t]) := by
  induction bs with
  | nil => rfl
  | cons p bs ih =>
    by_cases hp : p.1 = k
    · simp [branchGet, List.find?, hp]
    · simp only [branchGet, List.map_cons, if_neg hp, List.find?,
        decide_eq_false hp]
      simpa [branchGet] using ih

/-- Reading the pushed key: the branch list gains the pushed thought at
its end (starting from `[]` for a fresh branch). -/
theorem branchGet_branchPush_self (bs : Branches) (k : String)
    (t : ThoughtData) :
    branchGet (branchPush bs k t) k =
      some ((branchGet bs k).getD [] ++ [t]) := by
  unfold branchPush
  cases hf : List.find? (fun p => p.1 = k) bs with
  | none =>
    simp only [hf, Option.isSome_none, Bool.false_eq_true, if_false]
    have hnone : branchGet bs k = none := by
      unfold branchGet
      rw [hf]
      rfl
    rw [branchGet_append_fresh hnone, hnone]
    rfl
  | some pv =>
    simp only [hf, Option.isSome_some, if_true]
    rw [branchGet_push_map]
    have : branchGet bs k = some pv.2 := by
      unfold branchGet
      rw [hf]
      rfl
    rw [this]
    rfl

/-- Trimming an appended list keeps its last element (positive limit). -/
theorem trim_append_last {n : Nat} (hn : 0 < n) (l : List ThoughtData)
    (t : ThoughtData) :
    ∃ pre, (if (l ++ [t]).length > n then jsSliceLast (l ++ [t]) n
            else l ++ [t]) = pre ++ [t] := by
  by_cases h : (l ++ [t]).length > n
  · rw [if_pos h]
    unfold jsSliceLast
    rw [if_neg (Nat.pos_iff_ne_zero.mp hn)]
    have hk : (l ++ [t]).length - n ≤ l.length := by
      simp only [List.length_append, List.length_singleton]
      omega
    rw [List.drop_append_of_le_length hk]
    exact ⟨_, rfl⟩
  · rw [if_neg h]
    exact ⟨l, rfl⟩

/-- Pruning an appended main line keeps its last element (positive
limit). -/
theorem cleanupOldThoughts_append_last {M : Nat} (hM : 0 < M)
    (h : List ThoughtData) (t : ThoughtData) :
    ∃ pre, cleanupOldThoughts M (h ++ [t]) = pre ++ [t] := by
  rw [cleanupOldThoughts_eq_takeLast hM]
  unfold takeLast
  have hk : (h ++ [t]).length - M ≤ h.length := by
    simp only [List.length_append, List.length_singleton]
    omega
  rw [List.drop_append_of_le_length hk]
  exact ⟨_, rfl⟩

end SeqThink.Proofs10

namespace SeqThink.ClaimsC3C10

open SeqThink.Manager SeqThink.Server SeqThink.Sample SeqThink.Proofs
open SeqThink.Proofs4 SeqThink.Proofs5 SeqThink.Proofs6 SeqThink.Proofs9
open SeqThink.Proofs10

/-- C3, counterexample.  Branching from thought 3 of a five-thought main
line with the fresh branch id `b1` produces a branch holding only the
branching submission itself: its first entries are not copies of the main
line's first three thoughts. -/
theorem claim_C3_counterexample :
    (branchGet (serverStep branchRaw stateFive).branches "b1").map
        (fun l => l.map (fun t => t.thought)) = some ["branch thought"] ∧
    stateFive.thoughtHistory.map (fun t => t.thought) =
      ["one", "two", "three", "four", "five"] ∧
    ¬ ((branchGet (serverStep branchRaw stateFive).branches "b1").map
        (fun l => l.take 3) = some (stateFive.thoughtHistory.take 3)) := by
  decide

/-- C3, amended.  An accepted submission opening a fresh branch creates a
branch list holding exactly the submitted thought: no main-line thoughts
are copied into it. -/
theorem claim_C3_branch_not_seeded (cfg : Limits) (ids : Nat → String)
    (now : Nat) (input : RawInput) (s : ServerState) (r : Response)
    (s' : ServerState)
    (hval : isOkE (validateSequenceThoughtData input) = true)
    (hdir : noDirectives input)
    (hbt : numTruthy input.branchFromThought = true)
    (hbid : strTruthy input.branchId = true)
    (hfresh : branchGet s.branches (input.branchId.getD "") = none)
    (hcount : s.branches.length < cfg.maxBranches)
    (hper : 0 < cfg.maxThoughtsPerBranch)
    (hrun : processThought cfg ids now input s = (.ok r, s')) :
    branchGet s'.branches (input.branchId.getD "") =
      some [pushedThought input] := by
  obtain ⟨_, _, hbs, _⟩ := processThought_branch_step hval hdir hbt hbid hrun
  rw [hbs, branchPush_fresh hfresh, cleanupOldBranches_no_evict (by
    simp only [List.length_append, List.length_singleton]
    omega)]
  rw [show (fun (p : String × List ThoughtData) =>
      (p.1,
       if p.2.length > cfg.maxThoughtsPerBranch then
         jsSliceLast p.2 cfg.maxThoughtsPerBranch
       else p.2)) = (fun p =>
      (p.1, (fun l => if l.length > cfg.maxThoughtsPerBranch then
         jsSliceLast l cfg.maxThoughtsPerBranch else l) p.2)) from rfl]
  rw [branchGet_map_trim (fun l =>
    if l.length > cfg.maxThoughtsPerBranch then
      jsSliceLast l cfg.maxThoughtsPerBranch else l),
    branchGet_append_fresh hfresh]
  have hone : ¬ ([pushedThought input].length > cfg.maxThoughtsPerBranch) := by
    simp only [List.length_singleton]
    omega
  show some ((fun l => if l.length > cfg.maxThoughtsPerBranch then
    jsSliceLast l cfg.maxThoughtsPerBranch else l) [pushedThought input]) =
    some [pushedThought input]
  simp only
  rw [if_neg hone]

/-- Witness for the amended C3: the concrete five-thought run. -/
theorem claim_C3_witness :
    branchGet (serverStep branchRaw stateFive).branches "b1" =
      some [pushedThought branchRaw] := by
  have hok : isOkE (processThought cfgDefault anyIds 0 branchRaw
      stateFive).1 = true := by decide
  cases hpr : processThought cfgDefault anyIds 0 branchRaw stateFive with
  | mk r1 s1 =>
    cases r1 with
    | error e =>
        rw [hpr] at hok
        cases hok
    | ok resp =>
        show branchGet (processThought cfgDefault anyIds 0 branchRaw
          stateFive).2.branches "b1" = _
        rw [hpr]
        exact claim_C3_branch_not_seeded cfgDefault anyIds 0 branchRaw
          stateFive resp s1 (by decide) (by decide) (by decide) (by decide)
          (by decide) (by decide) (by decide) hpr

/-- C10.  An accepted branch submission is appended to the main line as
well as its branch: it is the last entry of both pruned lines, and the
response's `thoughtHistoryLength` and verification counts are computed
over that main line. -/
theorem claim_C10_branch_thoughts_on_main_line (cfg : Limits)
    (ids : Nat → String) (now : Nat) (input : RawInput) (s : ServerState)
    (r : Response) (s' : ServerState)
    (hval : isOkE (validateSequenceThoughtData input) = true)
    (hdir : noDirectives input)
    (hbt : numTruthy input.branchFromThought = true)
    (hbid : strTruthy input.branchId = true)
    (hM : 0 < cfg.maxThoughtHistory)
    (hper : 0 < cfg.maxThoughtsPerBranch)
    (hcount : (branchPush s.branches (input.branchId.getD "")
      (pushedThought input)).length ≤ cfg.maxBranches)
    (hrun : processThought cfg ids now input s = (.ok r, s')) :
    s'.thoughtHistory = cleanupOldThoughts cfg.maxThoughtHistory
      (s.thoughtHistory ++ [pushedThought input]) ∧
    s'.thoughtHistory.getLast? = some (pushedThought input) ∧
    (∃ l, branchGet s'.branches (input.branchId.getD "") = some l ∧
      l.getLast? = some (pushedThought input)) ∧
    (∃ resp, r = .thoughtAccepted resp ∧
      resp.thoughtHistoryLength = s'.thoughtHistory.length ∧
      resp.verificationStatus = getVerificationStatus s'.thoughtHistory) := by
  obtain ⟨hr, hh, hbs, _⟩ := processThought_branch_step hval hdir hbt hbid hrun
  refine ⟨hh, ?_, ?_, ?_⟩
  · obtain ⟨pre, hpre⟩ := cleanupOldThoughts_append_last hM
      s.thoughtHistory (pushedThought input)
    rw [hh, hpre, List.getLast?_concat]
  · rw [hbs, cleanupOldBranches_no_evict (by omega)]
    rw [show (fun (p : String × List ThoughtData) =>
        (p.1,
         if p.2.length > cfg.maxThoughtsPerBranch then
           jsSliceLast p.2 cfg.maxThoughtsPerBranch
         else p.2)) = (fun p =>
        (p.1, (fun l => if l.length > cfg.maxThoughtsPerBranch then
           jsSliceLast l cfg.maxThoughtsPerBranch else l) p.2)) from rfl]
    rw [branchGet_map_trim (fun l =>
      if l.length > cfg.maxThoughtsPerBranch then
        jsSliceLast l cfg.maxThoughtsPerBranch else l),
      branchGet_branchPush_self]
    obtain ⟨pre, hpre⟩ := trim_append_last hper
      ((branchGet s.branches (input.branchId.getD "")).getD [])
      (pushedThought input)
    exact ⟨_, rfl, by
      simp only [Option.map_some]
      rw [hpre, List.getLast?_concat]⟩
  · refine ⟨_, hr, ?_, ?_⟩
    · rw [hh]
      rfl
    · rw [hh]
      rfl

/-- Witness for C10: the concrete one-thought run extended by a branch
submission. -/
theorem claim_C10_witness :
    (serverStep branchAltRaw stateOne).thoughtHistory.getLast? =
      some (pushedThought branchAltRaw) ∧
    (∃ l, branchGet (serverStep branchAltRaw stateOne).branches "alt-1" =
      some l ∧ l.getLast? = some (pushedThought branchAltRaw)) := by
  have hok : isOkE (processThought cfgDefault anyIds 0 branchAltRaw
      stateOne).1 = true := by decide
  cases hpr : processThought cfgDefault anyIds 0 branchAltRaw stateOne with
  | mk r1 s1 =>
    cases r1 with
    | error e =>
        rw [hpr] at hok
        cases hok
    | ok resp =>
        have h := claim_C10_branch_thoughts_on_main_line cfgDefault anyIds 0
          branchAltRaw stateOne resp s1 (by decide) (by decide) (by decide)
          (by decide) (by decide) (by decide) (by decide) hpr
        constructor
        · show (processThought cfgDefault anyIds 0 branchAltRaw
            stateOne).2.thoughtHistory.getLast? = _
          rw [hpr]
          exact h.2.1
        · show ∃ l, branchGet (processThought cfgDefault anyIds 0 branchAltRaw
            stateOne).2.branches "alt-1" = some l ∧ _
          rw [hpr]
          exact h.2.2.1

end SeqThink.ClaimsC3C10

namespace SeqThink.ClaimsC5C8C9

open SeqThink.Manager SeqThink.Server SeqThink.Sample SeqThink.Proofs
open SeqThink.Proofs4 SeqThink.Proofs5 SeqThink.Proofs6 SeqThink.Proofs7

/-- C5.  After `maxThoughtHistory + 50` accepted plain submissions the
main line holds exactly the last `maxThoughtHistory` submitted thoughts,
in submission order: the 50 + initial oldest entries are dropped. -/
theorem claim_C5_eviction_bound (cfg : Limits) (ids : Nat → String)
    (now : Nat) (s : ServerState) (inputs : List RawInput)
    (hM : 0 < cfg.maxThoughtHistory)
    (hlen : inputs.length = cfg.maxThoughtHistory + 50)
    (hvalid : ∀ i ∈ inputs, plainSubmission i)
    (hacc : stepsAccepted cfg ids now inputs s = true) :
    (foldProcess cfg ids now inputs s).thoughtHistory =
      (inputs.map pushedThought).drop 50 ∧
    (foldProcess cfg ids now inputs s).thoughtHistory.length =
      cfg.maxThoughtHistory := by
  have hne : inputs ≠ [] := by
    intro h
    rw [h] at hlen
    simp at hlen
  have hvalid' : ∀ i ∈ inputs, isOkE (validateSequenceThoughtData i) = true ∧
      noDirectives i ∧ numTruthy i.branchFromThought = false := hvalid
  have h1 := foldProcess_history hM inputs s hne hvalid' hacc
  have hmap : (inputs.map pushedThought).length =
      cfg.maxThoughtHistory + 50 := by
    rw [List.length_map, hlen]
  have hdrop : takeLast cfg.maxThoughtHistory
      (s.thoughtHistory ++ inputs.map pushedThought) =
      (inputs.map pushedThought).drop 50 := by
    unfold takeLast
    rw [List.length_append, hmap]
    have harith : s.thoughtHistory.length + (cfg.maxThoughtHistory + 50) -
        cfg.maxThoughtHistory = s.thoughtHistory.length + 50 := by omega
    rw [harith, List.drop_append]
  refine ⟨by rw [h1, hdrop], ?_⟩
  rw [h1, hdrop, List.length_drop, hmap]
  omega

/-- Witness for C5: a 51-submission run against a one-entry limit keeps
exactly the last submission. -/
theorem claim_C5_witness :
    0 < cfgTiny.maxThoughtHistory ∧
    (foldProcess cfgTiny anyIds 0 (List.replicate 51 (plainRaw "x" 1 1))
      initialState).thoughtHistory.length = cfgTiny.maxThoughtHistory := by
  refine ⟨by decide, ?_⟩
  exact (claim_C5_eviction_bound cfgTiny anyIds 0 initialState
    (List.replicate 51 (plainRaw "x" 1 1)) (by decide) (by decide)
    (by decide) (by decide)).2

/-- C8.  A submission that fails validation yields a failure result and
leaves the entire state — thought history, branch map, current sequence
id and database — exactly as it was. -/
theorem claim_C8_validation_never_mutates (cfg : Limits)
    (ids : Nat → String) (now : Nat) (input : RawInput) (s : ServerState)
    (e : String) (h : validateSequenceThoughtData input = .error e) :
    processThought cfg ids now input s = (.error e, s) := by
  unfold processThought
  rw [h]

/-- Witness for C8: the out-of-range `thoughtNumber` submission leaves the
concrete five-thought state untouched. -/
theorem claim_C8_witness :
    validateSequenceThoughtData badNumberRaw =
      .error "Invalid thoughtNumber: must be a positive integer" ∧
    processThought cfgDefault anyIds 0 badNumberRaw stateFive =
      (.error "Invalid thoughtNumber: must be a positive integer",
       stateFive) := by
  refine ⟨by rfl, ?_⟩
  exact claim_C8_validation_never_mutates cfgDefault anyIds 0 badNumberRaw
    stateFive _ (by rfl)

/-- C9.  A submission carrying a management directive is processed only
when the base thought fields are present: lacking any of them, the whole
call fails and the state is untouched (so the directive has no effect). -/
theorem claim_C9_directive_needs_base_fields (cfg : Limits)
    (ids : Nat → String) (now : Nat) (input : RawInput) (s : ServerState)
    (hdirective : input.saveSequence.isSome = true ∨
      input.loadSequence.isSome = true ∨
      input.searchSequence.isSome = true ∨
      input.exportSequence.isSome = true ∨
      input.importSequence.isSome = true)
    (hmiss : input.thought = none ∨ input.thoughtNumber = none ∨
      input.totalThoughts = none ∨ input.nextThoughtNeeded = none) :
    ∃ e, processThought cfg ids now input s = (.error e, s) := by
  obtain ⟨e, he⟩ := validateSequenceThoughtData_error_of_missing hmiss
  refine ⟨e, ?_⟩
  unfold processThought
  rw [he]

/-- Witness for C9: a directive-only `exportSequence` submission without
base thought fields is rejected and the state survives unchanged. -/
theorem claim_C9_witness :
    directiveOnlyRaw.exportSequence.isSome = true ∧
    directiveOnlyRaw.thought = none ∧
    (∃ e, processThought cfgDefault anyIds 0 directiveOnlyRaw stateFive =
      (.error e, stateFive)) := by
  refine ⟨by decide, by decide, ?_⟩
  exact claim_C9_directive_needs_base_fields cfgDefault anyIds 0
    directiveOnlyRaw stateFive (Or.inr (Or.inr (Or.inr (Or.inl (by decide)))))
    (Or.inl rfl)

end SeqThink.ClaimsC5C8C9

namespace SeqThink.ClaimsC6

open SeqThink.Manager SeqThink.Server SeqThink.Sample SeqThink.Proofs

/-- Every entry of the fuzzy search output scores above the cutoff, comes
from the stored rows, and is its own re-scoring's record. -/
theorem searchSequencesFuzzy_mem {query : String} {rows : List SequenceRecord}
    {limit : Nat} {rec : SequenceRecord}
    (h : rec ∈ searchSequencesFuzzy query rows limit) :
    rec ∈ rows ∧ (scoreSequence query rec).score > 20 := by
  unfold searchSequencesFuzzy at h
  obtain ⟨x, hx, hxs⟩ := List.mem_map.mp h
  have hx1 : x ∈ List.insertionSort scoredOrder
      ((rows.map (scoreSequence query)).filter (fun item => item.score > 20)) :=
    (List.take_sublist _ _).mem hx
  have hx2 : x ∈ (rows.map (scoreSequence query)).filter
      (fun item => item.score > 20) :=
    (List.perm_insertionSort scoredOrder _).mem_iff.mp hx1
  obtain ⟨hx3, hx4⟩ := List.mem_filter.mp hx2
  obtain ⟨r0, hr0, hr0x⟩ := List.mem_map.mp hx3
  have hrec : r0 = rec := by
    rw [← hxs, ← hr0x]
    rfl
  subst hrec
  rw [← hr0x] at hx4
  exact ⟨hr0, by simpa using hx4⟩

/-- C6.  The fuzzy score is 100 on exact normalized match, 80 on
substring containment, 60 on a word-boundary match, and otherwise the
rounded LCS similarity scaled to 40; search candidates scoring ≤ 20 are
discarded, survivors are sorted by score descending with recency
tie-break, and the output is truncated to `limit`. -/
theorem claim_C6_fuzzy_search (query target : String)
    (rows : List SequenceRecord) (limit : Nat) :
    (normalizeDiacritics target = normalizeDiacritics query →
      calculateFuzzyScore query target = 100) ∧
    (normalizeDiacritics target ≠ normalizeDiacritics query →
      jsIncludes (normalizeDiacritics target) (normalizeDiacritics query) = true →
      calculateFuzzyScore query target = 80) ∧
    (normalizeDiacritics target ≠ normalizeDiacritics query →
      jsIncludes (normalizeDiacritics target) (normalizeDiacritics query) = false →
      (jsSplitWs (normalizeDiacritics target).toList).any
        (fun w => (normalizeDiacritics query).toList.isPrefixOf w) = true →
      calculateFuzzyScore query target = 60) ∧
    (normalizeDiacritics target ≠ normalizeDiacritics query →
      jsIncludes (normalizeDiacritics target) (normalizeDiacritics query) = false →
      (jsSplitWs (normalizeDiacritics target).toList).any
        (fun w => (normalizeDiacritics query).toList.isPrefixOf w) = false →
      calculateFuzzyScore query target =
        jsRound (((lcsLen (normalizeDiacritics query).toList
            (normalizeDiacritics target).toList) * 2 : ℚ) /
          (((normalizeDiacritics query).length : ℚ) +
            ((normalizeDiacritics target).length : ℚ)) * 40)) ∧
    (∀ rec ∈ searchSequencesFuzzy query rows limit,
      (scoreSequence query rec).score > 20 ∧ rec ∈ rows) ∧
    List.Pairwise (fun a b =>
      scoredOrder (scoreSequence query a) (scoreSequence query b))
      (searchSequencesFuzzy query rows limit) ∧
    (searchSequencesFuzzy query rows limit).length ≤ limit := by
  refine ⟨?_, ?_, ?_, ?_, ?_, ?_, ?_⟩
  · intro h
    unfold calculateFuzzyScore
    rw [if_pos h]
  · intro h hincl
    unfold calculateFuzzyScore
    rw [if_neg h, if_pos hincl]
  · intro h hincl hword
    unfold calculateFuzzyScore
    rw [if_neg h, if_neg (by rw [hincl]; simp), if_pos hword]
  · intro h hincl hword
    unfold calculateFuzzyScore
    rw [if_neg h, if_neg (by rw [hincl]; simp), if_neg (by rw [hword]; simp)]
  · intro rec hrec
    obtain ⟨h1, h2⟩ := searchSequencesFuzzy_mem hrec
    exact ⟨h2, h1⟩
  · unfold searchSequencesFuzzy
    rw [List.pairwise_map]
    have hsorted : List.Pairwise scoredOrder (List.insertionSort scoredOrder
        ((rows.map (scoreSequence query)).filter
          (fun item => item.score > 20))) :=
      List.sorted_insertionSort scoredOrder _
    have htake : List.Pairwise scoredOrder ((List.insertionSort scoredOrder
        ((rows.map (scoreSequence query)).filter
          (fun item => item.score > 20))).take limit) :=
      List.Pairwise.sublist (List.take_sublist _ _) hsorted
    refine List.Pairwise.imp_of_mem ?_ htake
    intro a b ha hb hab
    have hsa : a = scoreSequence query a.sequence := by
      have h1 : a ∈ (rows.map (scoreSequence query)).filter
          (fun item => item.score > 20) :=
        (List.perm_insertionSort scoredOrder _).mem_iff.mp
          ((List.take_sublist _ _).mem ha)
      obtain ⟨r0, _, hr0⟩ := List.mem_map.mp (List.mem_filter.mp h1).1
      rw [← hr0]
      rfl
    have hsb : b = scoreSequence query b.sequence := by
      have h1 : b ∈ (rows.map (scoreSequence query)).filter
          (fun item => item.score > 20) :=
        (List.perm_insertionSort scoredOrder _).mem_iff.mp
          ((List.take_sublist _ _).mem hb)
      obtain ⟨r0, _, hr0⟩ := List.mem_map.mp (List.mem_filter.mp h1).1
      rw [← hr0]
      rfl
    rw [← hsa, ← hsb]
    exact hab
  · unfold searchSequencesFuzzy
    rw [List.length_map]
    have := List.length_take limit (List.insertionSort scoredOrder
      ((rows.map (scoreSequence query)).filter (fun item => item.score > 20)))
    omega

/-- Witness for C6: the exact normalized match scores 100 and beats the
shorter-prefix candidate; the output respects the cutoff and limit. -/
theorem claim_C6_witness :
    calculateFuzzyScore "strategy" "Strategy" = 100 ∧
    (∀ rec ∈ searchSequencesFuzzy "strategy" [seqStrategy, seqStrategicPlan] 10,
      (scoreSequence "strategy" rec).score > 20 ∧
      rec ∈ [seqStrategy, seqStrategicPlan]) ∧
    (searchSequencesFuzzy "strategy" [seqStrategy, seqStrategicPlan] 10).length
      ≤ 10 := by
  refine ⟨?_, ?_, ?_⟩
  · exact (claim_C6_fuzzy_search "strategy" "Strategy"
      [seqStrategy, seqStrategicPlan] 10).1 (by decide)
  · exact (claim_C6_fuzzy_search "strategy" "Strategy"
      [seqStrategy, seqStrategicPlan] 10).2.2.2.2.1
  · exact (claim_C6_fuzzy_search "strategy" "Strategy"
      [seqStrategy, seqStrategicPlan] 10).2.2.2.2.2.2

end SeqThink.ClaimsC6

namespace SeqThink.ProofsC7

open SeqThink.Server

/-- The second component of any entry of `enumFrom` is an entry of the
underlying list. -/
theorem snd_mem_enumFrom {α : Type _} {n : Nat} {l : List α} {p : Nat × α}
    (h : p ∈ List.enumFrom n l) : p.2 ∈ l := by
  obtain ⟨i, x⟩ := p
  obtain ⟨h1, h2, h3⟩ := List.mem_enumFrom h
  simp only
  rw [h3]
  exact List.getElem_mem _

/-- `enumFrom` transports a `Pairwise` relation on the underlying list to
the second components. -/
theorem pairwise_enumFrom_snd {α : Type _} {R : α → α → Prop} :
    ∀ (l : List α) (n : Nat), l.Pairwise R →
      (List.enumFrom n l).Pairwise (fun a b => R a.2 b.2) := by
  intro l
  induction l with
  | nil => intro n _; exact List.Pairwise.nil
  | cons a t ih =>
      intro n h
      cases h with
      | cons hhead htail =>
          exact List.Pairwise.cons
            (fun x hx => hhead x.2 (snd_mem_enumFrom hx))
            (ih (n + 1) htail)

/-- A successful `INSERT INTO sequences` presupposes a fresh primary key
and appends the row. -/
theorem insertSequenceRow_ok (db : Db) (row : SequenceRecord) (db1 : Db)
    (h : insertSequenceRow db row = .ok db1) :
    (∀ r ∈ db.sequences, r.id ≠ row.id) ∧
    db1.sequences = db.sequences ++ [row] ∧ db1.thoughts = db.thoughts := by
  unfold insertSequenceRow at h
  split at h
  · exact Except.noConfusion h
  · next hany =>
      cases h
      refine ⟨?_, rfl, rfl⟩
      intro r hr hid
      exact hany (List.any_eq_true.mpr ⟨r, hr, by simp [hid]⟩)

/-- A successful `INSERT INTO thoughts` presupposes a fresh primary key
and appends the row. -/
theorem insertThoughtRow_ok (db : Db) (row : ThoughtRow) (db1 : Db)
    (h : insertThoughtRow db row = .ok db1) :
    db1.sequences = db.sequences ∧ db1.thoughts = db.thoughts ++ [row] := by
  unfold insertThoughtRow at h
  split at h
  · exact Except.noConfusion h
  · cases h
    exact ⟨rfl, rfl⟩

/-- A fully successful insertion loop appends exactly the given rows and
leaves the `sequences` table untouched. -/
theorem insertRowsSeq_ok :
    ∀ (rows : List ThoughtRow) (db db2 : Db) (u : Unit),
      insertRowsSeq rows db = (.ok u, db2) →
      db2.sequences = db.sequences ∧ db2.thoughts = db.thoughts ++ rows := by
  intro rows
  induction rows with
  | nil =>
      intro db db2 u h
      unfold insertRowsSeq at h
      cases h
      exact ⟨rfl, by simp⟩
  | cons r rest ih =>
      intro db db2 u h
      unfold insertRowsSeq at h
      split at h
      · exact Except.noConfusion (congrArg Prod.fst h)
      · next db1 heq =>
          obtain ⟨hseq, hth⟩ := ih db1 db2 u h
          obtain ⟨hseq1, hth1⟩ := insertThoughtRow_ok db r db1 heq
          refine ⟨by rw [hseq, hseq1], ?_⟩
          rw [hth, hth1]
          simp

/-- Anatomy of a successful `importSequence`: the new id is the first
generated id, it was fresh, the new sequence row counts the bundled
thoughts, and the bundled thoughts are appended re-parented in order. -/
theorem importSequence_ok (ids : Nat → String) (now : Nat)
    (bundle : ImportBundle) (db : Db) (newId : String) (db' : Db)
    (h : importSequence ids now bundle db = (.ok newId, db')) :
    newId = ids 0 ∧
    (∀ r ∈ db.sequences, r.id ≠ ids 0) ∧
    db'.sequences = db.sequences ++
      [{ id := ids 0, title := bundle.sequence.title,
         description := bundle.sequence.description, created := now,
         lastModified := now, status := SeqStatus.active,
         thoughtCount := bundle.thoughts.length }] ∧
    db'.thoughts = db.thoughts ++ bundle.thoughts.enum.map (fun p =>
      { p.2 with id := ids (p.1 + 1), sequenceId := ids 0,
                 created := now, modified := now }) := by
  unfold importSequence at h
  simp only at h
  split at h
  · exact Except.noConfusion (congrArg Prod.fst h)
  · next db1 heq =>
      split at h
      · exact Except.noConfusion (congrArg Prod.fst h)
      · next u db2 heq2 =>
          have hid : Except.ok (α := String) newId = Except.ok (ids 0) :=
            (congrArg Prod.fst h).symm
          have hdb : db2 = db' := congrArg Prod.snd h
          obtain ⟨hfreshSeq, hseq1, hth1⟩ := insertSequenceRow_ok db _ db1 heq
          obtain ⟨hseq2, hth2⟩ := insertRowsSeq_ok _ db1 db2 u heq2
          injection hid with hid
          refine ⟨hid, hfreshSeq, ?_, ?_⟩
          · rw [← hdb, hseq2, hseq1]
          · rw [← hdb, hth2, hth1]

end SeqThink.ProofsC7

namespace SeqThink.ClaimsC7

open SeqThink.Server SeqThink.Sample SeqThink.ProofsC7

/-- **C7, counterexample.**  A reachable store refutes
`thoughtCount(S′) = thoughtCount(S)`: under `maxThoughtHistory = 1`,
sequence `s1` holds three thought rows while its stored `thoughtCount` is
a stale `2`; exporting `s1` and importing the bundle creates `n0` with
`thoughtCount = 3 ≠ 2`. -/
theorem claim_C7_counterexample :
    rtBundle.sequence.id = "s1" ∧
    rtImport.1.toOption = some "n0" ∧
    (loadSequence rtState3.db "s1").map (fun s => s.thoughtCount) = some 2 ∧
    (loadSequence rtImport.2 "n0").map (fun s => s.thoughtCount) = some 3 ∧
    (2 : Nat) ≠ 3 := by
  decide

/-- **C7, amended.**  Exporting sequence `sid` and importing the bundle
allocates the fresh id `ids 0` (distinct from `sid`; no pre-existing
sequence row carries it or is removed), and the imported sequence's
`thoughtCount` equals the number of *exported thought rows* — not the
exporter's stored `thoughtCount`, which can be stale — while thought
content and `thoughtNumber` order are preserved exactly. -/
theorem claim_C7_round_trip_amended
    (db : Db) (sid : String) (bundle : ImportBundle) (ids : Nat → String)
    (now : Nat) (newId : String) (db' : Db)
    (hexp : exportSequence db sid = .ok bundle)
    (himp : importSequence ids now bundle db = (.ok newId, db'))
    (hfresh : ∀ t ∈ db.thoughts, t.sequenceId ≠ ids 0) :
    sid ≠ newId ∧
    (∀ r ∈ db.sequences, r.id ≠ newId ∧ r ∈ db'.sequences) ∧
    (loadSequence db' newId).map (fun s => s.thoughtCount)
      = some bundle.thoughts.length ∧
    (loadSequenceThoughts db' newId).map (fun t => (t.thought, t.thoughtNumber))
      = bundle.thoughts.map (fun t => (t.thought, t.thoughtNumber)) ∧
    bundle.thoughts = loadSequenceThoughts db sid := by
  obtain ⟨hid, hfreshSeq, hseqs, hths⟩ :=
    importSequence_ok ids now bundle db newId db' himp
  subst hid
  unfold exportSequence at hexp
  split at hexp
  · exact Except.noConfusion hexp
  · next seq hload =>
      unfold loadSequence at hload
      injection hexp with hexp
      have hbth : bundle.thoughts = loadSequenceThoughts db sid := by
        rw [← hexp]
      have hmem : seq ∈ db.sequences := List.mem_of_find?_eq_some hload
      have hfind := List.find?_some hload
      have hsid : seq.id = sid := of_decide_eq_true hfind
      have hrowsorted :
          List.Sorted byThoughtNumberAsc
            (bundle.thoughts.enum.map (fun p =>
              ({ p.2 with id := ids (p.1 + 1), sequenceId := ids 0,
                          created := now, modified := now } : ThoughtRow))) := by
        apply List.pairwise_map.mpr
        have hsorted : List.Sorted byThoughtNumberAsc bundle.thoughts := by
          rw [hbth]
          exact List.sorted_insertionSort byThoughtNumberAsc _
        exact pairwise_enumFrom_snd bundle.thoughts 0 hsorted
      refine ⟨?_, ?_, ?_, ?_, hbth⟩
      · rw [← hsid]
        exact fun hcontra => hfreshSeq seq hmem hcontra
      · intro r hr
        refine ⟨fun hcontra => hfreshSeq r hr hcontra, ?_⟩
        rw [hseqs]
        exact List.mem_append_left _ hr
      · unfold loadSequence
        rw [hseqs, List.find?_append]
        have hnone :
            db.sequences.find? (fun s => s.id = ids 0) = none :=
          List.find?_eq_none.mpr (fun x hx => by
            simp only [decide_eq_true_eq]
            exact hfreshSeq x hx)
        rw [hnone]
        simp [List.find?]
      · unfold loadSequenceThoughts
        rw [hths, List.filter_append]
        have hnil :
            db.thoughts.filter (fun t => t.sequenceId = ids 0) = [] :=
          List.filter_eq_nil_iff.mpr (fun x hx => by
            simp only [decide_eq_true_eq]
            exact hfresh x hx)
        have hself :
            (bundle.thoughts.enum.map (fun p =>
              ({ p.2 with id := ids (p.1 + 1), sequenceId := ids 0,
                          created := now, modified := now } : ThoughtRow))).filter
              (fun t => t.sequenceId = ids 0)
            = bundle.thoughts.enum.map (fun p =>
              ({ p.2 with id := ids (p.1 + 1), sequenceId := ids 0,
                          created := now, modified := now } : ThoughtRow)) :=
          List.filter_eq_self.mpr (fun a ha => by
            obtain ⟨q, hq, rfl⟩ := List.mem_map.mp ha
            simp)
        rw [hnil, hself, List.nil_append,
          List.Sorted.insertionSort_eq hrowsorted, List.map_map]
        rw [show ((fun t : ThoughtRow => (t.thought, t.thoughtNumber)) ∘
              (fun p : Nat × ThoughtRow =>
                ({ p.2 with id := ids (p.1 + 1), sequenceId := ids 0,
                            created := now, modified := now } : ThoughtRow)))
            = ((fun t : ThoughtRow => (t.thought, t.thoughtNumber)) ∘ Prod.snd)
          from rfl]
        rw [← List.map_map, List.enum_map_snd]

/-- **C7, witness**: the round-trip theorem applied to the reachable
fixture store, where the exported `thoughtCount` (2) is stale while the
bundle carries 3 rows. -/
theorem claim_C7_witness :
    ("s1" : String) ≠ "n0" ∧
    (∀ r ∈ rtState3.db.sequences, r.id ≠ "n0" ∧ r ∈ rtImport.2.sequences) ∧
    (loadSequence rtImport.2 "n0").map (fun s => s.thoughtCount)
      = some rtBundle.thoughts.length ∧
    (loadSequenceThoughts rtImport.2 "n0").map
        (fun t => (t.thought, t.thoughtNumber))
      = rtBundle.thoughts.map (fun t => (t.thought, t.thoughtNumber)) ∧
    rtBundle.thoughts = loadSequenceThoughts rtState3.db "s1" :=
  claim_C7_round_trip_amended rtState3.db "s1" rtBundle
    (fun n => "n" ++ toString n) 9 "n0" rtImport.2 rfl rfl (by decide)

end SeqThink.ClaimsC7
